import Mathlib

/-!
# Verification of the auto-analyser indicator engine and scheduler

This file gives a shallow embedding, in Lean 4, of the algorithmic core of the
auto-analyser stock screener: the custom Wilder RSI, the SMA/MACD wrappers and
the batch indicator API of `StockAnalyzer`, the stochastic oscillator, the
priority-tier refresh scheduler, the delisting-error classifier, the watchlist
priority handlers, and the per-key rate limiter.  Floating-point numbers of the
Rust source are modelled as rationals (`ℚ`): every arithmetic operation the
source performs on the inputs considered here is exact, and all degenerate
denominators are handled by explicit zero tests in the source itself.
Timestamps (`Instant` / SQL `NOW()`) are modelled as integers or naturals.
Theorems at the end settle the behavioural claims about this code.
-/

/-! ## CustomRSI (src/indicators/rsi.rs) -/

/-- State of `CustomRSI` (src/indicators/rsi.rs, lines 3-12). -/
structure CustomRSI where
  period : Nat
  avg_gain : Option ℚ
  avg_loss : Option ℚ
  previous_close : Option ℚ
  count : Nat
  initial_gains : List ℚ
  initial_losses : List ℚ
deriving Repr, DecidableEq

namespace CustomRSI

/-- `CustomRSI::new` (rsi.rs lines 15-25). -/
def new (period : Nat) : CustomRSI :=
  { period := period, avg_gain := none, avg_loss := none, previous_close := none,
    count := 0, initial_gains := [], initial_losses := [] }

/-- The average-update phase of `CustomRSI::next` (rsi.rs lines 33-49): during
warm-up the gain and loss are appended to the initial lists, and when the count
reaches `period` the averages are initialised to the simple means of those
lists; afterwards both averages are smoothed with `α = 1/period`.  The
source's `self.avg_gain.unwrap()` is modelled with `Option.getD _ 0`; along
states reachable from `new`, `count ≥ period` implies the averages are set, so
the default is never consulted. -/
def update_averages (s : CustomRSI) (gain loss : ℚ) : CustomRSI :=
  if s.count < s.period then
    if s.count + 1 = s.period then
      { s with initial_gains := s.initial_gains ++ [gain],
               initial_losses := s.initial_losses ++ [loss],
               count := s.count + 1,
               avg_gain := some ((s.initial_gains ++ [gain]).sum / (s.period : ℚ)),
               avg_loss := some ((s.initial_losses ++ [loss]).sum / (s.period : ℚ)) }
    else
      { s with initial_gains := s.initial_gains ++ [gain],
               initial_losses := s.initial_losses ++ [loss],
               count := s.count + 1 }
  else
    { s with
        avg_gain := some ((1 / (s.period : ℚ)) * gain +
          (1 - 1 / (s.period : ℚ)) * (s.avg_gain.getD 0)),
        avg_loss := some ((1 / (s.period : ℚ)) * loss +
          (1 - 1 / (s.period : ℚ)) * (s.avg_loss.getD 0)) }

/-- `let gain = if change > 0.0 { change } else { 0.0 }` (rsi.rs line 30). -/
def gainOf (change : ℚ) : ℚ :=
  if change > 0 then change else 0

/-- `let loss = if change < 0.0 { -change } else { 0.0 }` (rsi.rs line 31). -/
def lossOf (change : ℚ) : ℚ :=
  if change < 0 then -change else 0

/-- The output phase of `CustomRSI::next` (rsi.rs lines 51-64), applied to the
state `s1` produced by the average update: when both averages are set, return
`100` exactly if `avg_loss = 0` — via the source's early `return`, which skips
the `previous_close` update — and `100 − 100/(1+rs)` (updating
`previous_close`) otherwise; when the averages are still unset, update
`previous_close` and return nothing. -/
def emit (s1 : CustomRSI) (close : ℚ) : CustomRSI × Option ℚ :=
  match s1.avg_gain, s1.avg_loss with
  | some ag, some al =>
    if al = 0 then (s1, some 100)
    else ({ s1 with previous_close := some close }, some (100 - 100 / (1 + ag / al)))
  | _, _ => ({ s1 with previous_close := some close }, none)

/-- `CustomRSI::next` (rsi.rs lines 27-65), returning the updated state and the
output: nothing happens on the very first close; afterwards the signed change
against the stored `previous_close` is split into gain and loss, the averages
are updated, and the output phase runs. -/
def next (s : CustomRSI) (close : ℚ) : CustomRSI × Option ℚ :=
  match s.previous_close with
  | none => ({ s with previous_close := some close }, none)
  | some prev_close =>
    emit (update_averages s (gainOf (close - prev_close)) (lossOf (close - prev_close))) close

/-- Feeding a list of closes one by one (`next` in a loop), collecting the
outputs in order. -/
def run (s : CustomRSI) : List ℚ → CustomRSI × List (Option ℚ)
  | [] => (s, [])
  | c :: cs =>
    let step := s.next c
    let rest := step.1.run cs
    (rest.1, step.2 :: rest.2)

end CustomRSI

/-! ## Wilder RSI as the specification words it (for comparison with `CustomRSI`) -/

/-- RSI from a pair of averages: `100 − 100/(1+avg_gain/avg_loss)`, and exactly
`100` when `avg_loss = 0`. -/
def wilderRsiOf (ag al : ℚ) : ℚ :=
  if al = 0 then 100 else 100 - 100 / (1 + ag / al)

/-- One Wilder smoothing step on `(avg_gain, avg_loss)` for a signed change:
`avg = α·current + (1−α)·avg_prev` with `α = 1/period`. -/
def wilderStep (period : Nat) (avgs : ℚ × ℚ) (change : ℚ) : ℚ × ℚ :=
  let alpha : ℚ := 1 / (period : ℚ)
  (alpha * max change 0 + (1 - alpha) * avgs.1,
   alpha * max (-change) 0 + (1 - alpha) * avgs.2)

/-- Modelled from the spec: the reference Wilder RSI that `CustomRSI` is
documented to reproduce.  Output `i` corresponds to the `i`-th call of
`next`; it is absent until `period` price changes have been consumed; the
first averages are the simple means of the first `period` gains and losses;
later calls smooth with `α = 1/period`; and the change consumed by call `i`
is `closes[i] − closes[i−1]`, the difference against the close of the
immediately preceding call. -/
def wilderOutputs (period : Nat) (closes : List ℚ) : List (Option ℚ) :=
  (List.range closes.length).map (fun i =>
    if i < period then none
    else
      let changes := (List.range i).map (fun j => closes.getD (j + 1) 0 - closes.getD j 0)
      let headChanges := changes.take period
      let initGain := (headChanges.map (fun c => max c 0)).sum / (period : ℚ)
      let initLoss := (headChanges.map (fun c => max (-c) 0)).sum / (period : ℚ)
      let avgs := (changes.drop period).foldl (wilderStep period) (initGain, initLoss)
      some (wilderRsiOf avgs.1 avgs.2))

/-- `CustomRSI::reset` (rsi.rs lines 67-74): clears everything except the
period. -/
def CustomRSI.reset (s : CustomRSI) : CustomRSI :=
  { s with avg_gain := none, avg_loss := none, previous_close := none,
           count := 0, initial_gains := [], initial_losses := [] }

/-! ## SMA and MACD wrappers (src/indicators/sma.rs, src/indicators/macd.rs) -/

/-- Modelled from the spec: `SimpleMovingAverage` (src/indicators/sma.rs)
delegates to the external `ta` crate, whose code is not part of this
repository.  Per the spec, SMA(n) is the arithmetic mean of the last n closes;
the ta-crate implementation keeps a window of at most `period` inputs and
returns the mean of the inputs currently in the window (so before warm-up it
returns the mean of all inputs seen so far), which matches the repository's
own unit test (mean of three inputs with period 3). -/
structure SimpleMovingAverage where
  period : Nat
  window : List ℚ
deriving Repr, DecidableEq

namespace SimpleMovingAverage

/-- `SimpleMovingAverage::new`. -/
def new (period : Nat) : SimpleMovingAverage :=
  { period := period, window := [] }

/-- `SimpleMovingAverage::next`: push the input, keep the last `period`
entries, return their mean. -/
def next (s : SimpleMovingAverage) (input : ℚ) : SimpleMovingAverage × ℚ :=
  let w := s.window ++ [input]
  let w1 := w.drop (w.length - s.period)
  ({ s with window := w1 }, w1.sum / (w1.length : ℚ))

/-- `SimpleMovingAverage::reset`. -/
def reset (s : SimpleMovingAverage) : SimpleMovingAverage :=
  { s with window := [] }

/-- Feeding a list of inputs one by one, collecting the outputs. -/
def run (s : SimpleMovingAverage) : List ℚ → SimpleMovingAverage × List ℚ
  | [] => (s, [])
  | c :: cs =>
    let step := s.next c
    let rest := step.1.run cs
    (rest.1, step.2 :: rest.2)

end SimpleMovingAverage

/-- The SMA(n) value after `i + 1` closes of `cs` have been consumed: the mean
of the window holding the last `min (i+1) n` of the first `i + 1` closes.  For
`i ≥ n − 1` the window is exactly the last `n` closes. -/
def smaSpec (n : Nat) (cs : List ℚ) (i : Nat) : ℚ :=
  let w := (cs.take (i + 1)).drop (i + 1 - n)
  w.sum / (w.length : ℚ)

/-- Modelled from the spec: the `ta` crate's exponential moving average, used
by its MACD.  The first input becomes the EMA directly; later inputs are
smoothed with the standard multiplier `k = 2/(period+1)`. -/
structure Ema where
  period : Nat
  current : ℚ
  is_new : Bool
deriving Repr, DecidableEq

namespace Ema

/-- Fresh EMA state. -/
def new (period : Nat) : Ema :=
  { period := period, current := 0, is_new := true }

/-- One EMA step. -/
def next (e : Ema) (input : ℚ) : Ema × ℚ :=
  if e.is_new then ({ e with current := input, is_new := false }, input)
  else
    let k : ℚ := 2 / ((e.period : ℚ) + 1)
    let c := k * input + (1 - k) * e.current
    ({ e with current := c }, c)

/-- EMA reset: back to the fresh state with the same period. -/
def reset (e : Ema) : Ema :=
  { e with current := 0, is_new := true }

end Ema

/-- `MACDOutput` (macd.rs lines 5-10). -/
structure MACDOutput where
  macd : ℚ
  signal : ℚ
  histogram : ℚ
deriving Repr, DecidableEq

/-- Modelled from the spec: `MovingAverageConvergenceDivergence` (macd.rs)
wraps the external `ta` crate's MACD: macd line = EMA(fast) − EMA(slow),
signal line = EMA(signal) of the macd line, histogram = macd − signal. -/
structure MovingAverageConvergenceDivergence where
  ema_fast : Ema
  ema_slow : Ema
  ema_signal : Ema
deriving Repr, DecidableEq

namespace MovingAverageConvergenceDivergence

/-- `MovingAverageConvergenceDivergence::new`. -/
def new (fast_period slow_period signal_period : Nat) :
    MovingAverageConvergenceDivergence :=
  { ema_fast := Ema.new fast_period, ema_slow := Ema.new slow_period,
    ema_signal := Ema.new signal_period }

/-- `MovingAverageConvergenceDivergence::next`. -/
def next (m : MovingAverageConvergenceDivergence) (input : ℚ) :
    MovingAverageConvergenceDivergence × MACDOutput :=
  let stepFast := m.ema_fast.next input
  let stepSlow := m.ema_slow.next input
  let macd_line := stepFast.2 - stepSlow.2
  let stepSignal := m.ema_signal.next macd_line
  ({ ema_fast := stepFast.1, ema_slow := stepSlow.1, ema_signal := stepSignal.1 },
   { macd := macd_line, signal := stepSignal.2, histogram := macd_line - stepSignal.2 })

/-- `MovingAverageConvergenceDivergence::reset`. -/
def reset (m : MovingAverageConvergenceDivergence) : MovingAverageConvergenceDivergence :=
  { ema_fast := m.ema_fast.reset, ema_slow := m.ema_slow.reset,
    ema_signal := m.ema_signal.reset }

end MovingAverageConvergenceDivergence

/-! ## StockAnalyzer batch API (src/analyzer.rs) -/

/-- One OHLC bar (`StockData`, src/lib.rs / analyzer input).  Only the fields
read by the modelled functions are kept: `high` and `low` for the stochastic
oscillator, `close` for the moving averages, RSI and MACD.  `symbol`,
`timestamp`, `open` and `volume` are never read by them. -/
structure StockData where
  high : ℚ
  low : ℚ
  close : ℚ
deriving Repr, DecidableEq

/-- `TechnicalIndicators` (analyzer.rs lines 181-186). -/
structure TechnicalIndicators where
  sma_20 : Option ℚ
  sma_50 : Option ℚ
  rsi : Option ℚ
  macd : Option (ℚ × ℚ × ℚ)
deriving Repr, DecidableEq

/-- `IndicatorSet` (analyzer.rs lines 193-198). -/
structure IndicatorSet where
  sma_20 : SimpleMovingAverage
  sma_50 : SimpleMovingAverage
  rsi : CustomRSI
  macd : MovingAverageConvergenceDivergence
deriving Repr, DecidableEq

/-- The fresh per-symbol indicator set built by
`StockAnalyzer::initialize_indicators` (analyzer.rs lines 270-278):
SMA(20), SMA(50), RSI(14), MACD(12, 26, 9). -/
def initializeIndicators : IndicatorSet :=
  { sma_20 := SimpleMovingAverage.new 20, sma_50 := SimpleMovingAverage.new 50,
    rsi := CustomRSI.new 14, macd := MovingAverageConvergenceDivergence.new 12 26 9 }

/-- Resetting every indicator of a set (analyzer.rs lines 293-297). -/
def IndicatorSet.resetAll (iset : IndicatorSet) : IndicatorSet :=
  { sma_20 := iset.sma_20.reset, sma_50 := iset.sma_50.reset,
    rsi := iset.rsi.reset, macd := iset.macd.reset }

/-- The per-bar loop body of `calculate_indicators` (analyzer.rs lines
299-311): feed the close to each indicator and record a `TechnicalIndicators`
row per bar.  Note the SMA and MACD outputs are unconditionally wrapped in
`Some`. -/
def indicatorLoop (iset : IndicatorSet) : List StockData → IndicatorSet × List TechnicalIndicators
  | [] => (iset, [])
  | d :: ds =>
    let step20 := iset.sma_20.next d.close
    let step50 := iset.sma_50.next d.close
    let stepRsi := iset.rsi.next d.close
    let stepMacd := iset.macd.next d.close
    let iset1 : IndicatorSet :=
      { sma_20 := step20.1, sma_50 := step50.1, rsi := stepRsi.1, macd := stepMacd.1 }
    let rest := indicatorLoop iset1 ds
    (rest.1,
     { sma_20 := some step20.2, sma_50 := some step50.2, rsi := stepRsi.2,
       macd := some (stepMacd.2.macd, stepMacd.2.signal, stepMacd.2.histogram) } :: rest.2)

/-- `StockAnalyzer` (analyzer.rs lines 188-191): the per-symbol indicator map,
modelled as an association list (the `provider` field is external I/O). -/
structure StockAnalyzer where
  indicators : List (String × IndicatorSet)
deriving Repr, DecidableEq

/-- Replace the value bound to a key in an association list (the effect of
`HashMap::get_mut` followed by in-place mutation). -/
def alUpdate (key : String) (v : IndicatorSet) (m : List (String × IndicatorSet)) :
    List (String × IndicatorSet) :=
  m.map (fun e => if e.1 = key then (e.1, v) else e)

/-- `StockAnalyzer::calculate_indicators` (analyzer.rs lines 281-315): insert
a fresh indicator set if the symbol is unknown, reset all indicators, then
fold over the bars collecting one `TechnicalIndicators` per bar. -/
def StockAnalyzer.calculate_indicators (a : StockAnalyzer) (symbol : String)
    (stock_data : List StockData) : StockAnalyzer × List TechnicalIndicators :=
  let a1 : StockAnalyzer :=
    if (a.indicators.lookup symbol).isSome then a
    else { indicators := (symbol, initializeIndicators) :: a.indicators }
  match a1.indicators.lookup symbol with
  | none => (a1, [])
  | some iset =>
    let result := indicatorLoop iset.resetAll stock_data
    ({ indicators := alUpdate symbol result.1 a1.indicators }, result.2)

/-- The standard periods that `initialize_indicators` hardcodes; every set
stored in a reachable `StockAnalyzer` satisfies this, since the only insertion
point is `initialize_indicators`. -/
def StdPeriods (iset : IndicatorSet) : Prop :=
  iset.sma_20.period = 20 ∧ iset.sma_50.period = 50 ∧ iset.rsi.period = 14 ∧
    iset.macd.ema_fast.period = 12 ∧ iset.macd.ema_slow.period = 26 ∧
    iset.macd.ema_signal.period = 9

instance (iset : IndicatorSet) : Decidable (StdPeriods iset) := by
  unfold StdPeriods; infer_instance

/-! ## Stochastic oscillator (src/indicators/stochastic.rs) -/

/-- `StochasticValue` (stochastic.rs lines 8-12). -/
structure StochasticValue where
  k_percent : ℚ
  d_percent : ℚ
deriving Repr, DecidableEq

/-- `StochasticOscillator` (stochastic.rs lines 3-6). -/
structure StochasticOscillator where
  k_period : Nat
  d_period : Nat
deriving Repr, DecidableEq

/-- The window `data[i − k_period + 1 ..= i]` used at position `i`
(stochastic.rs line 29). -/
def stochWindow (k_period : Nat) (data : List StockData) (i : Nat) : List StockData :=
  (data.take (i + 1)).drop (i + 1 - k_period)

/-- Highest high of a window: the source folds `f64::max` from negative
infinity over a window that is nonempty whenever it is consulted, which is the
maximum of the entries; the `[]` case is unreachable there. -/
def highestHigh (w : List StockData) : ℚ :=
  match w.map StockData.high with
  | [] => 0
  | x :: xs => xs.foldl max x

/-- Lowest low of a window (fold of `f64::min` from positive infinity). -/
def lowestLow (w : List StockData) : ℚ :=
  match w.map StockData.low with
  | [] => 0
  | x :: xs => xs.foldl min x

/-- The %K value at position `i` (stochastic.rs lines 31-39):
`(close − lowestLow)/(highestHigh − lowestLow)·100`, and `50` when the
window's range is zero. -/
def kPercent (k_period : Nat) (data : List StockData) (i : Nat) : ℚ :=
  let w := stochWindow k_period data i
  let hh := highestHigh w
  let ll := lowestLow w
  let c := (data.getD i { high := 0, low := 0, close := 0 }).close
  if hh ≠ ll then (c - ll) / (hh - ll) * 100 else 50

/-- The %K/%D loop of `StochasticOscillator::calculate` (stochastic.rs lines
28-58), processing the listed positions while accumulating the `k_values`
vector: %D is the mean of the last `d_period` %K values once that many have
accumulated, and the current %K itself before that. -/
def stochLoop (k_period d_period : Nat) (data : List StockData) :
    List Nat → List ℚ → List (Option StochasticValue)
  | [], _ => []
  | i :: rest, k_values =>
    some { k_percent := kPercent k_period data i,
           d_percent :=
             if d_period ≤ (k_values ++ [kPercent k_period data i]).length then
               ((k_values ++ [kPercent k_period data i]).drop
                   ((k_values ++ [kPercent k_period data i]).length - d_period)).sum
                 / (d_period : ℚ)
             else kPercent k_period data i } ::
      stochLoop k_period d_period data rest (k_values ++ [kPercent k_period data i])

/-- `StochasticOscillator::calculate` (stochastic.rs lines 19-61): all-`None`
when fewer than `k_period` bars exist; otherwise `k_period − 1` leading `None`s
followed by one value per position from `k_period − 1` to the end. -/
def StochasticOscillator.calculate (o : StochasticOscillator) (data : List StockData) :
    List (Option StochasticValue) :=
  if data.length < o.k_period then List.replicate data.length none
  else
    List.replicate (o.k_period - 1) none ++
      stochLoop o.k_period o.d_period data
        (List.range' (o.k_period - 1) (data.length - (o.k_period - 1))) []

/-- The %D value the claim attributes to position `i`: the mean of the last
`d_period` %K values once `i` has accumulated that many (positions
`i+1-d_period` through `i`), and the current %K itself before that. -/
def dSpecValue (k_period d_period : Nat) (data : List StockData) (i : Nat) : ℚ :=
  if d_period ≤ i + 2 - k_period then
    (((List.range' (i + 1 - d_period) d_period).map (kPercent k_period data)).sum)
      / (d_period : ℚ)
  else kPercent k_period data i

/-! ## Priority tiers and the stock store
(src/models.rs, src/database_old.rs) -/

/-- `StockPriority` (models.rs lines 168-174). -/
inductive StockPriority where
  | high
  | medium
  | low
deriving Repr, DecidableEq

/-- `StockPriority::update_interval_seconds` (models.rs lines 177-184):
High 60 s, Medium 300 s, Low 900 s. -/
def StockPriority.update_interval_seconds : StockPriority → Nat
  | .high => 60
  | .medium => 300
  | .low => 900

/-- One row of the `stocks` table: the fields of `models::Stock` that the
modelled operations read or write.  `id`, `name`, `exchange`, `sector`,
`industry`, `market_cap` and `created_at` are never touched by them.
Timestamps are integer seconds. -/
structure Stock where
  symbol : String
  is_active : Bool
  delisting_reason : Option String
  last_error_at : Option ℤ
  last_error_message : Option String
  priority : StockPriority
  last_price_update : Option ℤ
  price_update_interval_seconds : ℤ
  updated_at : ℤ
deriving Repr, DecidableEq

/-- `Database::get_stocks_needing_update` (database_old.rs lines 421-442): the
symbols of active rows of the tier whose `last_price_update` is NULL or
strictly older than `NOW() − tier-interval`.  The SQL `ORDER BY
last_price_update ASC NULLS FIRST` only reorders the result; the claims below
are about membership, so the filter order is kept. -/
def get_stocks_needing_update (db : List Stock) (now : ℤ) (priority : StockPriority) :
    List String :=
  (db.filter (fun r =>
      r.is_active && r.priority == priority &&
        match r.last_price_update with
        | none => true
        | some t => decide (t < now - (priority.update_interval_seconds : ℤ)))).map
    Stock.symbol

/-- `Database::update_stock_price_timestamp` (database_old.rs lines 444-454). -/
def update_stock_price_timestamp (db : List Stock) (symbol : String) (now : ℤ) :
    List Stock :=
  db.map (fun r =>
    if r.symbol = symbol then
      { r with last_price_update := some now, updated_at := now }
    else r)

/-- `Database::set_stock_priority` (database_old.rs lines 456-470): sets the
priority and the derived interval on the symbol's row. -/
def set_stock_priority (db : List Stock) (symbol : String) (priority : StockPriority)
    (now : ℤ) : List Stock :=
  db.map (fun r =>
    if r.symbol = symbol then
      { r with priority := priority,
               price_update_interval_seconds := (priority.update_interval_seconds : ℤ),
               updated_at := now }
    else r)

/-- `StockListService::mark_stock_as_delisted_with_reason` (stock_list.rs
lines 82-106): sets `is_active = false`, the delisting reason, and the error
timestamp/message on the symbol's row. -/
def mark_stock_as_delisted_with_reason (db : List Stock) (symbol reason error_message : String)
    (now : ℤ) : List Stock :=
  db.map (fun r =>
    if r.symbol = symbol then
      { r with is_active := false, delisting_reason := some reason,
               last_error_at := some now, last_error_message := some error_message,
               updated_at := now }
    else r)

/-- `StockListService::mark_stock_as_delisted` (stock_list.rs lines 77-79). -/
def mark_stock_as_delisted (db : List Stock) (symbol : String) (now : ℤ) : List Stock :=
  mark_stock_as_delisted_with_reason db symbol "no_data_found"
    "No data found, symbol may be delisted" now

/-! ## Scheduler tick (src/services/priority_scheduler.rs) -/

/-- `PriorityScheduler`'s own per-tier spawn clock (priority_scheduler.rs
line 14): tier ↦ the `Instant` of the last spawned refresh, absent before the
first one. -/
structure SchedulerState where
  last_update_times : StockPriority → Option ℤ

/-- `PriorityScheduler::should_update_priority` (priority_scheduler.rs lines
72-79): a tier is due when it has never been spawned, or its last spawn is at
least the tier interval old. -/
def should_update_priority (s : SchedulerState) (now : ℤ) (priority : StockPriority) : Bool :=
  match s.last_update_times priority with
  | some last_update => decide ((priority.update_interval_seconds : ℤ) ≤ now - last_update)
  | none => true

/-- The set of symbols a single 30-second tick of `run_scheduler`
(priority_scheduler.rs lines 49-69) selects for refresh in one tier: the
tier's due-set from the store when `should_update_priority` passes, nothing
otherwise. -/
def tickSelect (s : SchedulerState) (db : List Stock) (now : ℤ) (priority : StockPriority) :
    List String :=
  if should_update_priority s now priority then get_stocks_needing_update db now priority
  else []

/-- The due-set of C4's own wording, used to compare the claim against the
code: active symbols of the tier whose `last_update` is absent or at least the
tier interval in the past. -/
def c4ClaimDue (db : List Stock) (now : ℤ) (priority : StockPriority) (symbol : String) :
    Prop :=
  ∃ r ∈ db, r.symbol = symbol ∧ r.is_active = true ∧ r.priority = priority ∧
    (r.last_price_update = none ∨
      ∃ t, r.last_price_update = some t ∧
        (priority.update_interval_seconds : ℤ) ≤ now - t)

/-! ## Delisting classification and quote fetching
(src/services/stock_list.rs, src/services/market_data.rs) -/

/-- Lowercase a character sequence (Rust `str::to_lowercase` on the ASCII
error messages involved). -/
def lowerChars (s : List Char) : List Char :=
  s.map Char.toLower

/-- Substring test on character sequences (Rust `str::contains`). -/
def containsSub (s pat : List Char) : Bool :=
  s.tails.any (fun t => pat.isPrefixOf t)

/-- The four delisting phrases of `is_delisting_error`. -/
def delistingPhrases : List (List Char) :=
  ["no data found".toList, "symbol may be delisted".toList,
   "invalid symbol".toList, "not found".toList]

/-- `MarketDataService::is_delisting_error` (market_data.rs lines 24-30):
case-insensitive substring match against the four delisting phrases. -/
def is_delisting_error (error_msg : List Char) : Bool :=
  let error_lower := lowerChars error_msg
  containsSub error_lower "no data found".toList ||
    containsSub error_lower "symbol may be delisted".toList ||
    containsSub error_lower "invalid symbol".toList ||
    containsSub error_lower "not found".toList

/-- `StockListService::should_ignore_symbol` (stock_list.rs lines 61-74):
ignore symbols containing `^`, `/` or `*`, and empty or whitespace-only
symbols (`symbol.trim().is_empty()`). -/
def should_ignore_symbol (symbol : String) : Bool :=
  if symbol.toList.contains '^' || symbol.toList.contains '/' || symbol.toList.contains '*' then
    true
  else if symbol.toList.all Char.isWhitespace then true
  else false

/-- `AppError` (src/utils/errors.rs), restricted to the two variants
`fetch_current_quote` produces; messages are character sequences. -/
inductive AppError where
  | BadRequest (msg : List Char)
  | InternalServerError (msg : List Char)
deriving Repr, DecidableEq

/-- The message text of an error. -/
def AppError.message : AppError → List Char
  | .BadRequest msg => msg
  | .InternalServerError msg => msg

/-- `QuoteResponse` (src/models.rs), the fields computed by
`fetch_current_quote` from the provider quote (the timestamp, `Utc::now()`,
is not read by anything modelled). -/
structure QuoteResponse where
  symbol : String
  price : ℚ
  change : ℚ
  change_percent : ℚ
  volume : ℤ
deriving Repr, DecidableEq

/-- A provider quote as returned by `get_latest_quotes(..).last_quote()`. -/
structure ProviderQuote where
  openPrice : ℚ
  close : ℚ
  volume : ℤ
deriving Repr, DecidableEq

/-- The outcome of one provider interaction: a quote, a failed fetch with the
provider's error text, or a fetch whose payload failed to parse. -/
inductive ProviderOutcome where
  | success (q : ProviderQuote)
  | fetchErr (e : List Char)
  | parseErr (e : List Char)
deriving Repr, DecidableEq

/-- The filtering-rules message `fetch_current_quote` raises for ignored
symbols. -/
def ignoredMsg (symbol : String) : List Char :=
  "Symbol ".toList ++ symbol.toList ++ " is ignored due to filtering rules".toList

/-- The may-be-delisted message built when a provider error classifies as a
delisting. -/
def delistedMsg (symbol : String) (e : List Char) : List Char :=
  "Stock ".toList ++ symbol.toList ++ " may be delisted: ".toList ++ e

/-- `MarketDataService::fetch_current_quote` (market_data.rs lines 32-70):
refuse ignored symbols with a BadRequest before any provider call; classify a
provider fetch/parse error as BadRequest (may be delisted) when the wrapped
error text matches a delisting phrase, and as InternalServerError otherwise;
on success build the `QuoteResponse` from the quote. -/
def fetch_current_quote (symbol : String) (o : ProviderOutcome) :
    Except AppError QuoteResponse :=
  if should_ignore_symbol symbol then
    .error (.BadRequest (ignoredMsg symbol))
  else
    match o with
    | .success q =>
      .ok { symbol := symbol, price := q.close, change := q.close - q.openPrice,
            change_percent := (q.close - q.openPrice) / q.openPrice * 100,
            volume := q.volume }
    | .fetchErr e =>
      let error_msg := "Failed to fetch quote: ".toList ++ e
      if is_delisting_error error_msg then .error (.BadRequest (delistedMsg symbol e))
      else .error (.InternalServerError error_msg)
    | .parseErr e =>
      let error_msg := "Failed to parse quote: ".toList ++ e
      if is_delisting_error error_msg then .error (.BadRequest (delistedMsg symbol e))
      else .error (.InternalServerError error_msg)

/-- `MarketDataService::fetch_current_quote_with_delisting_check`
(market_data.rs lines 73-85): re-raise the fetch result, and when it is a
`BadRequest` whose message classifies as a delisting, mark the symbol's row
as delisted first.  The returned Bool records whether
`mark_stock_as_delisted` was invoked. -/
def fetch_current_quote_with_delisting_check (symbol : String) (o : ProviderOutcome)
    (db : List Stock) (now : ℤ) : Except AppError QuoteResponse × Bool × List Stock :=
  match fetch_current_quote symbol o with
  | .ok quote => (.ok quote, false, db)
  | .error (.BadRequest msg) =>
    if is_delisting_error msg then
      (.error (.BadRequest msg), true, mark_stock_as_delisted db symbol now)
    else (.error (.BadRequest msg), false, db)
  | .error e => (.error e, false, db)

/-! ## Watchlist handlers (src/handlers/watchlist.rs, src/database_old.rs) -/

/-- The tables the watchlist handlers touch: the `watchlist` rows
(user id, symbol) and the `stocks` rows. -/
structure AppDb where
  watchlist : List (Nat × String)
  stocks : List Stock
deriving Repr, DecidableEq

/-- `Database::get_watchlist_symbols` (database_old.rs lines 472-480):
`SELECT DISTINCT symbol FROM watchlist`.  The claims only test membership, so
`dedup` stands in for DISTINCT + ORDER BY. -/
def get_watchlist_symbols (watchlist : List (Nat × String)) : List String :=
  (watchlist.map Prod.snd).dedup

/-- `Database::add_to_watchlist` (database_old.rs lines 106-131):
`INSERT .. ON CONFLICT DO NOTHING` followed by `fetch_one`, which errors when
the pair already exists (no row is returned). -/
def db_add_to_watchlist (watchlist : List (Nat × String)) (user_id : Nat) (symbol : String) :
    Except Unit (List (Nat × String)) :=
  if watchlist.contains (user_id, symbol) then .error ()
  else .ok (watchlist ++ [(user_id, symbol)])

/-- The handler `add_to_watchlist` (handlers/watchlist.rs lines 22-46): insert
the watchlist row, set the stock's priority to High, and spawn
`trigger_immediate_update` for the symbol — returned here as the list of
symbols refreshed out of band, which the handler builds without consulting
any `last_price_update`. -/
def add_to_watchlist (db : AppDb) (user_id : Nat) (symbol : String) (now : ℤ) :
    Except Unit (AppDb × List String) :=
  match db_add_to_watchlist db.watchlist user_id symbol with
  | .error () => .error ()
  | .ok w1 =>
    .ok ({ watchlist := w1, stocks := set_stock_priority db.stocks symbol .high now },
         [symbol])

/-- The handler `remove_from_watchlist` (handlers/watchlist.rs lines 48-64):
delete the row, then demote the stock to Medium only when the symbol no
longer appears in any watchlist. -/
def remove_from_watchlist (db : AppDb) (user_id : Nat) (symbol : String) (now : ℤ) : AppDb :=
  if (get_watchlist_symbols (db.watchlist.filter
      (fun e => !(decide (e.1 = user_id ∧ e.2 = symbol))))).contains symbol then
    { watchlist := db.watchlist.filter (fun e => !(decide (e.1 = user_id ∧ e.2 = symbol))),
      stocks := db.stocks }
  else
    { watchlist := db.watchlist.filter (fun e => !(decide (e.1 = user_id ∧ e.2 = symbol))),
      stocks := set_stock_priority db.stocks symbol .medium now }

/-! ## Rate limiter (src/cache.rs) -/

/-- Insert-or-replace in the rate limiter's per-key map
(`DashMap::insert`). -/
def rlInsert (m : List (String × Nat)) (key : String) (v : Nat) : List (String × Nat) :=
  (key, v) :: m.filter (fun e => !(decide (e.1 = key)))

/-- `CacheManager::should_rate_limit` (cache.rs lines 82-92): refuse — and
leave the map untouched — when the key's recorded instant is less than
`min_interval` old; otherwise record `now` for the key and allow.  `Instant`
is monotone, so instants are naturals and `elapsed` is truncated
subtraction. -/
def should_rate_limit (m : List (String × Nat)) (now : Nat) (identifier : String)
    (min_interval : Nat) : List (String × Nat) × Bool :=
  match m.lookup identifier with
  | some last_request =>
    if now - last_request < min_interval then (m, true)
    else (rlInsert m identifier now, false)
  | none => (rlInsert m identifier now, false)

/-- Nonnegativity invariant on an RSI state: every recorded gain/loss and both
averages (when set) are nonnegative.  It holds for `CustomRSI.new` and is
preserved by `CustomRSI.next`. -/
def CustomRSI.Nonneg (s : CustomRSI) : Prop :=
  (∀ x ∈ s.initial_gains, 0 ≤ x) ∧ (∀ x ∈ s.initial_losses, 0 ≤ x) ∧
    (∀ a, s.avg_gain = some a → 0 ≤ a) ∧ (∀ a, s.avg_loss = some a → 0 ≤ a)

/-- A stocks-table row with the given symbol, activity flag, tier and
last-update timestamp, and neutral values for the remaining columns; used to
instantiate the store in concrete scenarios. -/
def mkStock (symbol : String) (is_active : Bool) (priority : StockPriority)
    (last_price_update : Option ℤ) : Stock :=
  { symbol := symbol, is_active := is_active, delisting_reason := none,
    last_error_at := none, last_error_message := none, priority := priority,
    last_price_update := last_price_update,
    price_update_interval_seconds := 60, updated_at := 0 }

/-! ## Theorems -/

/-- C2: `CustomRSI` reproduces Wilder's method exactly — REFUTED; the code's
early `return Some(100.0)` when `avg_loss == 0.0` skips the update of
`previous_close`, so the next call derives its gain/loss from a stale close.
With period 2 and closes 10, 11, 12, 11 the code's fourth call compares 11
with the stale close 11 (change 0) and returns RSI 100, while Wilder's method
as the claim states it compares 11 with 12 (change −1), giving averages
(1/2, 1/2) and RSI 50. -/
theorem c2_rsi_not_wilder :
    ((CustomRSI.new 2).run [10, 11, 12, 11]).2 = [none, none, some 100, some 100]
      ∧ wilderOutputs 2 [10, 11, 12, 11] = [none, none, some 100, some 50]
      ∧ ((CustomRSI.new 2).run [10, 11, 12, 11]).1.previous_close = some 11 := by
  refine ⟨?_, ?_, ?_⟩ <;>
    norm_num [CustomRSI.run, CustomRSI.next, CustomRSI.update_averages,
      CustomRSI.gainOf, CustomRSI.lossOf, CustomRSI.emit, CustomRSI.new,
      wilderOutputs, wilderStep, wilderRsiOf, List.range_succ]


namespace CustomRSI

theorem nonneg_new (p : Nat) : Nonneg (new p) := by
  refine ⟨?_, ?_, ?_, ?_⟩ <;> simp [new, Nonneg]

theorem gainOf_nonneg (change : ℚ) : 0 ≤ gainOf change := by
  unfold gainOf; split_ifs with h
  · exact le_of_lt h
  · exact le_refl 0

theorem lossOf_nonneg (change : ℚ) : 0 ≤ lossOf change := by
  unfold lossOf; split_ifs with h
  · linarith
  · exact le_refl 0

theorem alpha_nonneg (p : Nat) : (0:ℚ) ≤ 1 / (p : ℚ) := by positivity

theorem one_sub_alpha_nonneg (p : Nat) : (0:ℚ) ≤ 1 - 1 / (p : ℚ) := by
  rcases Nat.eq_zero_or_pos p with hz | hpos
  · simp [hz]
  · have h1 : (1:ℚ) / (p : ℚ) ≤ 1 := by
      rw [div_le_one (by exact_mod_cast hpos)]
      exact_mod_cast hpos
    linarith

theorem nonneg_update_averages (s : CustomRSI) (gain loss : ℚ) (h : Nonneg s)
    (hg : 0 ≤ gain) (hl : 0 ≤ loss) : Nonneg (update_averages s gain loss) := by
  obtain ⟨h1, h2, h3, h4⟩ := h
  have hmemg : ∀ x ∈ s.initial_gains ++ [gain], 0 ≤ x := by
    intro x hx
    rcases List.mem_append.1 hx with hx | hx
    · exact h1 x hx
    · simp at hx; subst hx; exact hg
  have hmeml : ∀ x ∈ s.initial_losses ++ [loss], 0 ≤ x := by
    intro x hx
    rcases List.mem_append.1 hx with hx | hx
    · exact h2 x hx
    · simp at hx; subst hx; exact hl
  have hgetg : 0 ≤ s.avg_gain.getD 0 := by
    cases hv : s.avg_gain with
    | none => simp
    | some a => simpa using h3 a hv
  have hgetl : 0 ≤ s.avg_loss.getD 0 := by
    cases hv : s.avg_loss with
    | none => simp
    | some a => simpa using h4 a hv
  unfold update_averages
  split_ifs with hc hc2
  · refine ⟨hmemg, hmeml, ?_, ?_⟩
    · intro a ha
      simp only at ha
      rw [Option.some_inj] at ha
      subst ha
      exact div_nonneg (List.sum_nonneg hmemg) (by positivity)
    · intro a ha
      simp only at ha
      rw [Option.some_inj] at ha
      subst ha
      exact div_nonneg (List.sum_nonneg hmeml) (by positivity)
  · exact ⟨hmemg, hmeml, h3, h4⟩
  · refine ⟨h1, h2, ?_, ?_⟩
    · intro a ha
      simp only at ha
      rw [Option.some_inj] at ha
      subst ha
      have hx1 := mul_nonneg (alpha_nonneg s.period) hg
      have hx2 := mul_nonneg (one_sub_alpha_nonneg s.period) hgetg
      linarith
    · intro a ha
      simp only at ha
      rw [Option.some_inj] at ha
      subst ha
      have hx1 := mul_nonneg (alpha_nonneg s.period) hl
      have hx2 := mul_nonneg (one_sub_alpha_nonneg s.period) hgetl
      linarith

theorem emit_snd_bounds (s1 : CustomRSI) (close : ℚ) (h : Nonneg s1) :
    ∀ v, (s1.emit close).2 = some v → 0 ≤ v ∧ v ≤ 100 := by
  obtain ⟨_, _, h3, h4⟩ := h
  intro v hv
  unfold emit at hv
  cases hg : s1.avg_gain with
  | none => simp only [hg] at hv; cases hl : s1.avg_loss <;> simp [hl] at hv
  | some ag =>
    cases hl : s1.avg_loss with
    | none => simp [hg, hl] at hv
    | some al =>
      simp only [hg, hl] at hv
      have hag : 0 ≤ ag := h3 ag hg
      have hal : 0 ≤ al := h4 al hl
      split_ifs at hv with hz
      · simp only [Prod.snd, Option.some_inj] at hv
        subst hv
        norm_num
      · simp only [Prod.snd, Option.some_inj] at hv
        subst hv
        have halpos : 0 < al := lt_of_le_of_ne hal (Ne.symm hz)
        have hrs : 0 ≤ ag / al := div_nonneg hag hal
        have hpos : (0:ℚ) < 1 + ag / al := by linarith
        constructor
        · have hle : 100 / (1 + ag / al) ≤ 100 := by
            rw [div_le_iff₀ hpos]
            nlinarith
          linarith
        · have hgt : 0 < 100 / (1 + ag / al) := by positivity
          linarith

theorem emit_fst_nonneg (s1 : CustomRSI) (close : ℚ) (h : Nonneg s1) :
    Nonneg (s1.emit close).1 := by
  obtain ⟨p, ag, al, pc, cnt, ig, il⟩ := s1
  obtain ⟨h1, h2, h3, h4⟩ := h
  cases ag with
  | none => cases al <;> exact ⟨h1, h2, h3, h4⟩
  | some a =>
    cases al with
    | none => exact ⟨h1, h2, h3, h4⟩
    | some b =>
      unfold emit
      simp only
      split_ifs with hz
      · exact ⟨h1, h2, h3, h4⟩
      · exact ⟨h1, h2, h3, h4⟩

theorem nonneg_next (s : CustomRSI) (close : ℚ) (h : Nonneg s) :
    Nonneg (s.next close).1 := by
  obtain ⟨p, ag, al, pc, cnt, ig, il⟩ := s
  cases pc with
  | none => exact ⟨h.1, h.2.1, h.2.2.1, h.2.2.2⟩
  | some q =>
    exact emit_fst_nonneg _ _
      (nonneg_update_averages _ _ _ h (gainOf_nonneg _) (lossOf_nonneg _))

theorem next_snd_bounds (s : CustomRSI) (close : ℚ) (h : Nonneg s) :
    ∀ v, (s.next close).2 = some v → 0 ≤ v ∧ v ≤ 100 := by
  obtain ⟨p, ag, al, pc, cnt, ig, il⟩ := s
  intro v hv
  cases pc with
  | none => simp [next] at hv
  | some q =>
    exact emit_snd_bounds _ _
      (nonneg_update_averages _ _ _ h (gainOf_nonneg _) (lossOf_nonneg _)) v hv

theorem run_snd_bounds (cs : List ℚ) (s : CustomRSI) (h : Nonneg s) :
    ∀ v : ℚ, some v ∈ (s.run cs).2 → 0 ≤ v ∧ v ≤ 100 := by
  induction cs generalizing s with
  | nil => simp [run]
  | cons c cs ih =>
    intro v hv
    simp only [run, List.mem_cons] at hv
    rcases hv with hv | hv
    · exact next_snd_bounds s c h v hv.symm
    · exact ih (s.next c).1 (nonneg_next s c h) v hv

theorem emit_avg_loss_zero (s1 : CustomRSI) (c : ℚ)
    (h1 : ((s1.emit c).2).isSome) (h2 : ((s1.emit c).1).avg_loss = some 0) :
    (s1.emit c).2 = some 100 := by
  obtain ⟨p, ag, al, pc, cnt, ig, il⟩ := s1
  cases ag with
  | none => cases al <;> simp [emit] at h1
  | some a =>
    cases al with
    | none => simp [emit] at h1
    | some b =>
      unfold emit at h2 ⊢
      simp only at h2 ⊢
      split_ifs at h2 ⊢ with hz
      · rfl
      · have hb : b = 0 := by simpa using h2
        exact absurd hb hz

theorem next_avg_loss_zero (s : CustomRSI) (c : ℚ)
    (h1 : ((s.next c).2).isSome) (h2 : ((s.next c).1).avg_loss = some 0) :
    (s.next c).2 = some 100 := by
  obtain ⟨p, ag, al, pc, cnt, ig, il⟩ := s
  cases pc with
  | none => simp [next] at h1
  | some q => exact emit_avg_loss_zero _ c h1 h2

theorem gainOf_pos (q c : ℚ) (hqc : q < c) : gainOf (c - q) = c - q := by
  unfold gainOf
  rw [if_pos]
  linarith

theorem lossOf_pos (q c : ℚ) (hqc : q < c) : lossOf (c - q) = 0 := by
  unfold lossOf
  rw [if_neg]
  intro h
  linarith

theorem next_after_100 (s : CustomRSI) (q c : ℚ) (hcnt : ¬ s.count < s.period)
    (hal : s.avg_loss = some 0) (hag : s.avg_gain.isSome)
    (hprev : s.previous_close = some q) (hqc : q < c) :
    ∃ g, s.next c = ({ s with avg_gain := some g, avg_loss := some 0 }, some 100) := by
  obtain ⟨p, ag, al, pc, cnt, ig, il⟩ := s
  obtain ⟨a, ha⟩ := Option.isSome_iff_exists.mp hag
  simp only at ha hal hprev hcnt
  subst ha
  subst hal
  subst hprev
  refine ⟨(1 / (p : ℚ)) * (c - q) + (1 - 1 / (p : ℚ)) * a, ?_⟩
  simp only [next, update_averages, emit, hcnt, if_false,
    gainOf_pos q c hqc, lossOf_pos q c hqc, Option.getD_some, mul_zero, zero_add]
  norm_num

theorem run_after_100 (l : List ℚ) (s : CustomRSI) (q : ℚ)
    (hcnt : ¬ s.count < s.period) (hal : s.avg_loss = some 0) (hag : s.avg_gain.isSome)
    (hprev : s.previous_close = some q) (hq : ∀ x ∈ l, q < x) :
    (s.run l).2 = l.map (fun _ => some 100) := by
  induction l generalizing s with
  | nil => simp [run]
  | cons c cs ih =>
    obtain ⟨g, hstep⟩ := next_after_100 s q c hcnt hal hag hprev (hq c (by simp))
    simp only [run, hstep, List.map_cons]
    refine congrArg (some 100 :: ·) (ih _ hcnt rfl rfl hprev ?_)
    intro x hx
    exact hq x (List.mem_cons_of_mem c hx)

theorem next_warm_complete (s : CustomRSI) (q c : ℚ) (hc : s.count + 1 = s.period)
    (hag : s.avg_gain = none) (hal : s.avg_loss = none)
    (hsum : s.initial_losses.sum = 0) (hprev : s.previous_close = some q) (hqc : q < c) :
    ∃ g, s.next c =
      ({ s with initial_gains := s.initial_gains ++ [c - q],
                initial_losses := s.initial_losses ++ [0],
                count := s.count + 1, avg_gain := some g, avg_loss := some 0 }, some 100) := by
  obtain ⟨p, ag, al, pc, cnt, ig, il⟩ := s
  simp only at hc hag hal hsum hprev
  subst hag
  subst hal
  subst hprev
  refine ⟨(ig ++ [c - q]).sum / (p : ℚ), ?_⟩
  have hlt : cnt < p := by omega
  simp only [next, update_averages, emit, hlt, hc, if_true,
    gainOf_pos q c hqc, lossOf_pos q c hqc, List.sum_append, hsum,
    List.sum_cons, List.sum_nil]
  norm_num

theorem next_warm_incomplete (s : CustomRSI) (q c : ℚ) (hlt : s.count < s.period)
    (hne : ¬ s.count + 1 = s.period) (hag : s.avg_gain = none) (hal : s.avg_loss = none)
    (hprev : s.previous_close = some q) (hqc : q < c) :
    s.next c = ({ s with initial_gains := s.initial_gains ++ [c - q],
                          initial_losses := s.initial_losses ++ [0],
                          count := s.count + 1, previous_close := some c }, none) := by
  obtain ⟨p, ag, al, pc, cnt, ig, il⟩ := s
  simp only at hlt hne hag hal hprev
  subst hag
  subst hal
  subst hprev
  simp only [next, update_averages, emit, hlt, hne, if_true, if_false,
    gainOf_pos q c hqc, lossOf_pos q c hqc]

theorem run_warm (l : List ℚ) (s : CustomRSI) (q : ℚ)
    (hlt : s.count < s.period) (hag : s.avg_gain = none) (hal : s.avg_loss = none)
    (hsum : s.initial_losses.sum = 0) (hprev : s.previous_close = some q)
    (hsorted : (q :: l).Pairwise (· < ·)) :
    (s.run l).2 = List.replicate (min l.length (s.period - s.count - 1)) none
      ++ (l.drop (s.period - s.count - 1)).map (fun _ => some 100) := by
  induction l generalizing s q with
  | nil => simp [run]
  | cons c cs ih =>
    have hqc : q < c := (List.pairwise_cons.mp hsorted).1 c (by simp)
    by_cases hc : s.count + 1 = s.period
    · obtain ⟨g, hstep⟩ := next_warm_complete s q c hc hag hal hsum hprev hqc
      have h0 : s.period - s.count - 1 = 0 := by omega
      have hrest : ∀ x ∈ cs, q < x := by
        intro x hx
        exact (List.pairwise_cons.mp hsorted).1 x (List.mem_cons_of_mem c hx)
      simp only [run, hstep, h0, List.drop_zero, List.map_cons, Nat.min_zero,
        List.replicate_zero, List.nil_append]
      exact congrArg (some 100 :: ·) (run_after_100 cs _ q (by simp; omega) rfl rfl hprev hrest)
    · have hstep := next_warm_incomplete s q c hlt hc hag hal hprev hqc
      have hk : s.period - s.count - 1 = (s.period - (s.count + 1) - 1) + 1 := by omega
      have ih2 := ih ({ s with initial_gains := s.initial_gains ++ [c - q],
                               initial_losses := s.initial_losses ++ [0],
                               count := s.count + 1, previous_close := some c }) c
        (by simp; omega) hag hal (by simp [hsum]) rfl
        ((List.pairwise_cons.mp hsorted).2)
      simp only [run, hstep, List.map_cons]
      simp only at ih2
      rw [ih2, hk, List.length_cons, Nat.succ_min_succ, List.replicate_succ,
        List.drop_succ_cons, List.cons_append]

end CustomRSI

/-- C1: every RSI value `CustomRSI` returns lies in [0, 100]; whenever the
updated `avg_loss` is zero the returned value is exactly `100` (never a NaN or
infinity — the division is only taken after the zero test); and for a strictly
increasing close sequence every output from index `period` on (the first index
at which an output exists) is exactly `100`. -/
theorem c1_rsi_output_range (p : Nat) (hp : 1 ≤ p) (closes : List ℚ) :
    (∀ v : ℚ, some v ∈ ((CustomRSI.new p).run closes).2 → 0 ≤ v ∧ v ≤ 100) ∧
    (∀ (s : CustomRSI) (c : ℚ), ((s.next c).2).isSome →
      ((s.next c).1).avg_loss = some 0 → (s.next c).2 = some 100) ∧
    (closes.Pairwise (· < ·) → ∀ i, p ≤ i →
      ∀ v, (((CustomRSI.new p).run closes).2).get? i = some v → v = some 100) := by
  refine ⟨?_, ?_, ?_⟩
  · exact fun v hv => CustomRSI.run_snd_bounds closes _ (CustomRSI.nonneg_new p) v hv
  · exact fun s c h1 h2 => CustomRSI.next_avg_loss_zero s c h1 h2
  · intro hsorted i hi v hv
    cases closes with
    | nil => simp [CustomRSI.run] at hv
    | cons c cs =>
      have hstep : (CustomRSI.new p).next c =
          (⟨p, none, none, some c, 0, [], []⟩, none) := rfl
      have hw := CustomRSI.run_warm cs ⟨p, none, none, some c, 0, [], []⟩ c
        (by simpa using hp) rfl rfl (by simp) rfl hsorted
      simp only at hw
      simp only [CustomRSI.run, hstep, hw] at hv
      cases i with
      | zero => omega
      | succ j =>
        rw [List.get?_cons_succ] at hv
        have hm : (List.replicate (min cs.length (p - 0 - 1)) (none : Option ℚ)).length ≤ j := by
          simp only [List.length_replicate]
          omega
        rw [List.get?_append_right hm, List.get?_map] at hv
        rcases hx : (cs.drop (p - 0 - 1)).get?
            (j - (List.replicate (min cs.length (p - 0 - 1)) (none : Option ℚ)).length) with _ | x
        · rw [hx] at hv
          simp only [Option.map] at hv
          exact absurd hv (by simp)
        · rw [hx] at hv
          simp only [Option.map] at hv
          exact (Option.some_inj.mp hv).symm

/-- Witness for C1 at period 1 and closes 0, 1: the emitted value 100 is inside
[0, 100], and the output at index 1 of this strictly increasing sequence is
exactly 100. -/
theorem c1_rsi_output_range_witness :
    ((0:ℚ) ≤ 100 ∧ (100:ℚ) ≤ 100) ∧ (some (100:ℚ) = some 100) := by
  have h := c1_rsi_output_range 1 (by decide) [0, 1]
  refine ⟨h.1 100 ?_, h.2.2 ?_ 1 (le_refl 1) (some 100) ?_⟩
  · simp [CustomRSI.run, CustomRSI.next, CustomRSI.update_averages, CustomRSI.emit,
      CustomRSI.gainOf, CustomRSI.lossOf, CustomRSI.new]
  · simp [List.pairwise_cons]
  · simp [CustomRSI.run, CustomRSI.next, CustomRSI.update_averages, CustomRSI.emit,
      CustomRSI.gainOf, CustomRSI.lossOf, CustomRSI.new]

theorem window_step (n : Nat) (pre : List ℚ) (c : ℚ) :
    ((pre.drop (pre.length - n)) ++ [c]).drop
        ((pre.drop (pre.length - n)).length + 1 - n)
      = (pre ++ [c]).drop (pre.length + 1 - n) := by
  by_cases h : pre.length < n
  · have h1 : pre.length - n = 0 := by omega
    simp [h1]
  · have hlen : (pre.drop (pre.length - n)).length = n := by
      simp only [List.length_drop]
      omega
    rw [hlen]
    rcases Nat.eq_zero_or_pos n with hz | hpos
    · subst hz
      simp
    · have h2 : n + 1 - n = 1 := by omega
      rw [h2, List.drop_append_eq_append_drop, List.drop_drop,
        List.drop_append_eq_append_drop]
      have h3 : 1 - (pre.drop (pre.length - n)).length = 0 := by
        rw [hlen]; omega
      have h4 : pre.length + 1 - n - pre.length = 0 := by omega
      rw [h3, h4]
      have h5 : pre.length - n + 1 = pre.length + 1 - n := by omega
      rw [h5]

theorem sma_run_get (n : Nat) (cs : List ℚ) (pre : List ℚ) :
    ∀ i v, (((SimpleMovingAverage.mk n (pre.drop (pre.length - n))).run cs).2).get? i
        = some v →
      v = smaSpec n (pre ++ cs) (pre.length + i) := by
  induction cs generalizing pre with
  | nil =>
    intro i v hv
    simp [SimpleMovingAverage.run] at hv
  | cons c cs ih =>
    intro i v hv
    have hwlen : ((pre.drop (pre.length - n)) ++ [c]).length - n
        = (pre.drop (pre.length - n)).length + 1 - n := by simp
    have hstep : (SimpleMovingAverage.mk n (pre.drop (pre.length - n))).next c
        = (SimpleMovingAverage.mk n ((pre ++ [c]).drop (pre.length + 1 - n)),
           ((pre ++ [c]).drop (pre.length + 1 - n)).sum /
             (((pre ++ [c]).drop (pre.length + 1 - n)).length : ℚ)) := by
      simp only [SimpleMovingAverage.next, hwlen, window_step]
    simp only [SimpleMovingAverage.run, hstep] at hv
    cases i with
    | zero =>
      rw [List.get?_cons_zero, Option.some_inj] at hv
      subst hv
      simp only [smaSpec]
      have htake : (pre ++ c :: cs).take (pre.length + 0 + 1) = pre ++ [c] := by
        rw [List.take_append_eq_append_take]
        have h1 : pre.take (pre.length + 0 + 1) = pre := List.take_of_length_le (by omega)
        have h2 : pre.length + 0 + 1 - pre.length = 1 := by omega
        rw [h1, h2]
        rfl
      rw [htake]
    | succ j =>
      rw [List.get?_cons_succ] at hv
      have hsh : (pre ++ [c]).drop (pre.length + 1 - n)
          = (pre ++ [c]).drop ((pre ++ [c]).length - n) := by
        simp
      rw [hsh] at hv
      have hres := ih (pre ++ [c]) j v hv
      rw [hres]
      have h6 : (pre ++ [c]) ++ cs = pre ++ c :: cs := by simp
      have h7 : (pre ++ [c]).length + j = pre.length + (j + 1) := by simp; omega
      rw [h6, h7]

theorem sma_run_length (s : SimpleMovingAverage) (cs : List ℚ) :
    ((s.run cs).2).length = cs.length := by
  induction cs generalizing s with
  | nil => simp [SimpleMovingAverage.run]
  | cons c cs ih => simp [SimpleMovingAverage.run, ih]

theorem indicatorLoop_length (ds : List StockData) (iset : IndicatorSet) :
    ((indicatorLoop iset ds).2).length = ds.length := by
  induction ds generalizing iset with
  | nil => simp [indicatorLoop]
  | cons d ds ih => simp [indicatorLoop, ih]

theorem indicatorLoop_sma20 (ds : List StockData) (iset : IndicatorSet) :
    ((indicatorLoop iset ds).2).map TechnicalIndicators.sma_20
      = (((iset.sma_20).run (ds.map StockData.close)).2).map some := by
  induction ds generalizing iset with
  | nil => simp [indicatorLoop, SimpleMovingAverage.run]
  | cons d ds ih =>
    simp only [indicatorLoop, List.map_cons, SimpleMovingAverage.run]
    exact congrArg (List.cons _) (ih _)

theorem indicatorLoop_sma50 (ds : List StockData) (iset : IndicatorSet) :
    ((indicatorLoop iset ds).2).map TechnicalIndicators.sma_50
      = (((iset.sma_50).run (ds.map StockData.close)).2).map some := by
  induction ds generalizing iset with
  | nil => simp [indicatorLoop, SimpleMovingAverage.run]
  | cons d ds ih =>
    simp only [indicatorLoop, List.map_cons, SimpleMovingAverage.run]
    exact congrArg (List.cons _) (ih _)

theorem resetAll_std (iset : IndicatorSet) (h : StdPeriods iset) :
    iset.resetAll = initializeIndicators := by
  obtain ⟨⟨p20, w20⟩, ⟨p50, w50⟩, ⟨pr, agr, alr, pcr, cntr, igr, ilr⟩,
    ⟨⟨pf, cf, bf⟩, ⟨ps, cs, bs⟩, ⟨pg, cg, bg⟩⟩⟩ := iset
  obtain ⟨h1, h2, h3, h4, h5, h6⟩ := h
  simp only at h1 h2 h3 h4 h5 h6
  subst h1; subst h2; subst h3; subst h4; subst h5; subst h6
  rfl

theorem calculate_indicators_snd (a : StockAnalyzer) (symbol : String)
    (bars : List StockData)
    (h : ∀ iset, a.indicators.lookup symbol = some iset → StdPeriods iset) :
    (a.calculate_indicators symbol bars).2 = (indicatorLoop initializeIndicators bars).2 := by
  unfold StockAnalyzer.calculate_indicators
  cases hl : a.indicators.lookup symbol with
  | some iset =>
    simp only [hl, Option.isSome_some, if_true]
    rw [resetAll_std iset (h iset hl)]
  | none =>
    simp only [hl, Option.isSome_none, Bool.false_eq_true, if_false]
    have hself : ((symbol, initializeIndicators) :: a.indicators).lookup symbol
        = some initializeIndicators := by
      simp [List.lookup]
    simp only [hself]
    rfl

/-- Counterexample to C3: with a single bar the batch API already reports
`sma_20 = Some(100.0)` at position 0 — the field is never absent, because
`calculate_indicators` wraps the ta-crate SMA output unconditionally in `Some`
(analyzer.rs line 306), while the claim requires it to be absent before 20
closes. -/
theorem c3_sma_warmup_counterexample :
    (((StockAnalyzer.mk []).calculate_indicators "A"
        [{ high := 1, low := 1, close := 100 }]).2.map TechnicalIndicators.sma_20)
      = [some 100] ∧ some (100:ℚ) ≠ none := by
  constructor
  · norm_num [StockAnalyzer.calculate_indicators, indicatorLoop, initializeIndicators,
      SimpleMovingAverage.new, SimpleMovingAverage.next, CustomRSI.new, CustomRSI.next,
      MovingAverageConvergenceDivergence.new, MovingAverageConvergenceDivergence.next,
      Ema.new, Ema.next, IndicatorSet.resetAll, SimpleMovingAverage.reset,
      CustomRSI.reset, MovingAverageConvergenceDivergence.reset, Ema.reset,
      List.lookup, alUpdate]
  · simp

/-- C3 amended: the `sma_20` (resp. `sma_50`) field of every snapshot is
present at every position — before warm-up it holds the mean of the closes
seen so far — and it equals the mean of the window of the last
`min (i+1) 20` closes; from position 19 (resp. 49) onward that window has
exactly 20 (resp. 50) entries, so the value is the exact arithmetic mean of
the last 20 (resp. 50) closes. -/
theorem c3_sma_window_mean (a : StockAnalyzer) (symbol : String) (bars : List StockData)
    (h : ∀ iset, a.indicators.lookup symbol = some iset → StdPeriods iset) :
    ∀ i, i < bars.length →
      ((((a.calculate_indicators symbol bars).2).map TechnicalIndicators.sma_20).get? i
          = some (some (smaSpec 20 (bars.map StockData.close) i)) ∧
        (((a.calculate_indicators symbol bars).2).map TechnicalIndicators.sma_50).get? i
          = some (some (smaSpec 50 (bars.map StockData.close) i)) ∧
        (19 ≤ i → (((bars.map StockData.close).take (i + 1)).drop (i + 1 - 20)).length = 20) ∧
        (49 ≤ i → (((bars.map StockData.close).take (i + 1)).drop (i + 1 - 50)).length = 50)) := by
  intro i hi
  rw [calculate_indicators_snd a symbol bars h]
  have hlen : ((bars.map StockData.close).take (i + 1)).length = i + 1 := by
    rw [List.length_take]
    simp
    omega
  refine ⟨?_, ?_, ?_, ?_⟩
  · rw [indicatorLoop_sma20]
    simp only [initializeIndicators]
    have hrl : (((SimpleMovingAverage.new 20).run (bars.map StockData.close)).2).length
        = bars.length := by
      rw [sma_run_length]; simp
    rcases hx : (((SimpleMovingAverage.new 20).run (bars.map StockData.close)).2).get? i
      with _ | x
    · rw [List.get?_eq_none] at hx
      omega
    · have hv := sma_run_get 20 (bars.map StockData.close) [] i x (by simpa using hx)
      rw [List.get?_map, hx, Option.map]
      simp only [List.nil_append, List.length_nil, Nat.zero_add] at hv
      rw [hv]
  · rw [indicatorLoop_sma50]
    simp only [initializeIndicators]
    have hrl : (((SimpleMovingAverage.new 50).run (bars.map StockData.close)).2).length
        = bars.length := by
      rw [sma_run_length]; simp
    rcases hx : (((SimpleMovingAverage.new 50).run (bars.map StockData.close)).2).get? i
      with _ | x
    · rw [List.get?_eq_none] at hx
      omega
    · have hv := sma_run_get 50 (bars.map StockData.close) [] i x (by simpa using hx)
      rw [List.get?_map, hx, Option.map]
      simp only [List.nil_append, List.length_nil, Nat.zero_add] at hv
      rw [hv]
  · intro h19
    rw [List.length_drop, hlen]
    omega
  · intro h49
    rw [List.length_drop, hlen]
    omega

/-- Witness for C3 (amended) on 20 constant bars: at position 19 the sma_20
snapshot field equals the window mean. -/
theorem c3_sma_window_mean_witness :
    ((((StockAnalyzer.mk []).calculate_indicators "A"
          (List.replicate 20 { high := 1, low := 1, close := 1 })).2).map
        TechnicalIndicators.sma_20).get? 19
      = some (some (smaSpec 20
          ((List.replicate 20 { high := 1, low := 1, close := (1:ℚ) }).map StockData.close)
          19)) := by
  exact (c3_sma_window_mean (StockAnalyzer.mk []) "A"
    (List.replicate 20 { high := 1, low := 1, close := 1 })
    (by intro iset hq; exact Option.noConfusion hq) 19 (by simp)).1

/-- C9: the batch API returns exactly one snapshot per input bar, and —
because it resets all per-symbol indicator state first — two calls with the
same bar list return identical snapshot lists whatever state either analyzer
accumulated before (every reachable state satisfies `StdPeriods`, since
`initialize_indicators` is the only insertion point). -/
theorem c9_batch_reset_deterministic (a b : StockAnalyzer) (symbol : String)
    (bars : List StockData)
    (ha : ∀ iset, a.indicators.lookup symbol = some iset → StdPeriods iset)
    (hb : ∀ iset, b.indicators.lookup symbol = some iset → StdPeriods iset) :
    ((a.calculate_indicators symbol bars).2).length = bars.length ∧
      (a.calculate_indicators symbol bars).2 = (b.calculate_indicators symbol bars).2 := by
  constructor
  · rw [calculate_indicators_snd a symbol bars ha]
    exact indicatorLoop_length bars initializeIndicators
  · rw [calculate_indicators_snd a symbol bars ha,
      calculate_indicators_snd b symbol bars hb]

/-- Witness for C9: an empty analyzer and an analyzer already holding
(arbitrary, standard-period) accumulated state for the symbol produce the same
single-snapshot batch for a one-bar input. -/
theorem c9_batch_reset_deterministic_witness :
    (((StockAnalyzer.mk []).calculate_indicators "A"
        [{ high := 1, low := 1, close := 1 }]).2).length = 1 ∧
      ((StockAnalyzer.mk []).calculate_indicators "A"
          [{ high := 1, low := 1, close := 1 }]).2
        = ((StockAnalyzer.mk [("A",
            { sma_20 := { period := 20, window := [5] },
              sma_50 := { period := 50, window := [] },
              rsi := { period := 14, avg_gain := some 3, avg_loss := some 4,
                       previous_close := some 7, count := 14,
                       initial_gains := [1], initial_losses := [2] },
              macd := { ema_fast := { period := 12, current := 9, is_new := false },
                        ema_slow := { period := 26, current := 2, is_new := false },
                        ema_signal := { period := 9, current := 1, is_new := false } } })]).calculate_indicators
          "A" [{ high := 1, low := 1, close := 1 }]).2 := by
  have h := c9_batch_reset_deterministic (StockAnalyzer.mk [])
    (StockAnalyzer.mk [("A",
      { sma_20 := { period := 20, window := [5] },
        sma_50 := { period := 50, window := [] },
        rsi := { period := 14, avg_gain := some 3, avg_loss := some 4,
                 previous_close := some 7, count := 14,
                 initial_gains := [1], initial_losses := [2] },
        macd := { ema_fast := { period := 12, current := 9, is_new := false },
                  ema_slow := { period := 26, current := 2, is_new := false },
                  ema_signal := { period := 9, current := 1, is_new := false } } })])
    "A" [{ high := 1, low := 1, close := 1 }]
    (by intro iset hq; exact Option.noConfusion hq)
    (by
      intro iset hq
      simp only [List.lookup] at hq
      rw [show (("A" : String) == "A") = true from rfl] at hq
      simp only [Option.some_inj] at hq
      subst hq
      exact ⟨rfl, rfl, rfl, rfl, rfl, rfl⟩)
  exact h

theorem mem_get_stocks_needing_update (db : List Stock) (now : ℤ)
    (priority : StockPriority) (symbol : String) :
    symbol ∈ get_stocks_needing_update db now priority ↔
      ∃ r ∈ db, r.symbol = symbol ∧ r.is_active = true ∧ r.priority = priority ∧
        (r.last_price_update = none ∨ ∃ t, r.last_price_update = some t ∧
          t < now - (priority.update_interval_seconds : ℤ)) := by
  unfold get_stocks_needing_update
  rw [List.mem_map]
  constructor
  · rintro ⟨r, hr, rfl⟩
    rw [List.mem_filter] at hr
    obtain ⟨hrdb, hcond⟩ := hr
    simp only [Bool.and_eq_true, beq_iff_eq] at hcond
    obtain ⟨⟨hact, hpri⟩, hdue⟩ := hcond
    refine ⟨r, hrdb, rfl, hact, hpri, ?_⟩
    cases hlpu : r.last_price_update with
    | none => exact Or.inl rfl
    | some t =>
      rw [hlpu] at hdue
      simp only [decide_eq_true_eq] at hdue
      exact Or.inr ⟨t, rfl, hdue⟩
  · rintro ⟨r, hrdb, rfl, hact, hpri, hdue⟩
    refine ⟨r, ?_, rfl⟩
    rw [List.mem_filter]
    refine ⟨hrdb, ?_⟩
    simp only [Bool.and_eq_true, beq_iff_eq]
    refine ⟨⟨hact, hpri⟩, ?_⟩
    rcases hdue with hnone | ⟨t, ht, hlt⟩
    · rw [hnone]
    · rw [ht]
      simpa using hlt

/-- Counterexample to C4, in two parts.  Tier gating: at a tick 30 s after the
High tier was last spawned, a High symbol with `last_update = None` is in the
claim's due-set but the tick selects nothing for the tier
(`should_update_priority` fails, priority_scheduler.rs line 54).  Strictness:
with the tier gate open, a symbol whose `last_price_update` is exactly 60 s
old is in the claim's "at least tier_interval" due-set, but the SQL condition
`last_price_update < NOW() − INTERVAL` (database_old.rs line 431) is strict
and does not select it. -/
theorem c4_counterexample :
    (c4ClaimDue [mkStock "AAPL" true .high none] 1000 .high "AAPL" ∧
      "AAPL" ∉ tickSelect ⟨fun _ => some 970⟩ [mkStock "AAPL" true .high none] 1000 .high) ∧
    (c4ClaimDue [mkStock "MSFT" true .high (some 940)] 1000 .high "MSFT" ∧
      "MSFT" ∉ tickSelect ⟨fun _ => none⟩ [mkStock "MSFT" true .high (some 940)] 1000 .high) := by
  refine ⟨⟨?_, ?_⟩, ⟨?_, ?_⟩⟩
  · exact ⟨mkStock "AAPL" true .high none, by simp, rfl, rfl, rfl, Or.inl rfl⟩
  · decide
  · exact ⟨mkStock "MSFT" true .high (some 940), by simp, rfl, rfl, rfl,
      Or.inr ⟨940, rfl, by decide⟩⟩
  · decide

/-- C4 amended: a tick refreshes a tier only when the scheduler's own per-tier
spawn clock is due (absent, or at least tier_interval old); when it is, the
selected set is exactly the active symbols of that tier whose
`last_price_update` is absent or STRICTLY more than tier_interval in the past.
A symbol with absent `last_price_update` is always in the store's due-set, and
every selected symbol comes from an active row of the tier. -/
theorem c4_tick_select (s : SchedulerState) (db : List Stock) (now : ℤ)
    (priority : StockPriority) (symbol : String) :
    (symbol ∈ tickSelect s db now priority ↔
      should_update_priority s now priority = true ∧
        ∃ r ∈ db, r.symbol = symbol ∧ r.is_active = true ∧ r.priority = priority ∧
          (r.last_price_update = none ∨ ∃ t, r.last_price_update = some t ∧
            t < now - (priority.update_interval_seconds : ℤ))) ∧
    (∀ r ∈ db, r.is_active = true → r.priority = priority → r.last_price_update = none →
      r.symbol ∈ get_stocks_needing_update db now priority) ∧
    (∀ sym ∈ get_stocks_needing_update db now priority,
      ∃ r ∈ db, r.symbol = sym ∧ r.is_active = true ∧ r.priority = priority) := by
  refine ⟨?_, ?_, ?_⟩
  · unfold tickSelect
    split_ifs with hgate
    · rw [mem_get_stocks_needing_update]
      simp [hgate]
    · simp only [List.not_mem_nil, false_iff, not_and]
      intro hg
      exact absurd hg (by simpa using hgate)
  · intro r hr hact hpri hnone
    rw [mem_get_stocks_needing_update]
    exact ⟨r, hr, rfl, hact, hpri, Or.inl hnone⟩
  · intro sym hsym
    rw [mem_get_stocks_needing_update] at hsym
    obtain ⟨r, hr, hs, hact, hpri, _⟩ := hsym
    exact ⟨r, hr, hs, hact, hpri⟩

/-- Witness for C4 (amended): the always-due part at a concrete store — the
never-updated active High symbol is in the due-set. -/
theorem c4_tick_select_witness :
    "AAPL" ∈ get_stocks_needing_update [mkStock "AAPL" true .high none] 1000 .high := by
  exact (c4_tick_select ⟨fun _ => none⟩ [mkStock "AAPL" true .high none] 1000 .high
    "AAPL").2.1 (mkStock "AAPL" true .high none) (by simp) rfl rfl rfl

theorem should_rate_limit_of_some (m : List (String × Nat)) (now : Nat)
    (identifier : String) (min_interval : Nat) (last : Nat)
    (hl : m.lookup identifier = some last) :
    should_rate_limit m now identifier min_interval =
      if now - last < min_interval then (m, true)
      else (rlInsert m identifier now, false) := by
  unfold should_rate_limit
  rw [hl]

theorem should_rate_limit_of_none (m : List (String × Nat)) (now : Nat)
    (identifier : String) (min_interval : Nat)
    (hl : m.lookup identifier = none) :
    should_rate_limit m now identifier min_interval
      = (rlInsert m identifier now, false) := by
  unfold should_rate_limit
  rw [hl]

/-- Counterexample to C7: `should_rate_limit` does NOT record the current
instant on a refused call.  With key "k" recorded at instant 0, a call at
instant 5 with a 10-tick window is refused and the map still holds 0 for "k",
not 5 as the claim's "records the current instant on every call" requires. -/
theorem c7_counterexample :
    (should_rate_limit [("k", 0)] 5 "k" 10).2 = true ∧
      ((should_rate_limit [("k", 0)] 5 "k" 10).1).lookup "k" = some 0 ∧
      some 0 ≠ some (5 : Nat) := by
  refine ⟨rfl, rfl, by decide⟩

/-- C7 amended: `should_rate_limit` refuses exactly when the key's recorded
instant is less than `min_interval` old, leaving the map untouched; it records
the current instant only on allowed calls.  Consequently a key with no record
is allowed; a second call before `min_interval` has elapsed since the
recorded (allowed) call is refused; and a call at least `min_interval` after
an allowed call is allowed again. -/
theorem c7_rate_limiter (m : List (String × Nat)) (now : Nat) (identifier : String)
    (min_interval : Nat) :
    ((should_rate_limit m now identifier min_interval).2 = true ↔
      ∃ last, m.lookup identifier = some last ∧ now - last < min_interval) ∧
    ((should_rate_limit m now identifier min_interval).2 = true →
      (should_rate_limit m now identifier min_interval).1 = m) ∧
    ((should_rate_limit m now identifier min_interval).2 = false →
      ((should_rate_limit m now identifier min_interval).1).lookup identifier = some now) ∧
    (m.lookup identifier = none → (should_rate_limit m now identifier min_interval).2 = false) ∧
    (∀ now2, (should_rate_limit m now identifier min_interval).2 = false →
      now2 - now < min_interval →
      (should_rate_limit ((should_rate_limit m now identifier min_interval).1)
        now2 identifier min_interval).2 = true) ∧
    (∀ now3, (should_rate_limit m now identifier min_interval).2 = false →
      min_interval ≤ now3 - now →
      (should_rate_limit ((should_rate_limit m now identifier min_interval).1)
        now3 identifier min_interval).2 = false) := by
  have hins : ∀ v : Nat, (rlInsert m identifier v).lookup identifier = some v := by
    intro v
    simp [rlInsert, List.lookup]
  have hrec : (should_rate_limit m now identifier min_interval).2 = false →
      ((should_rate_limit m now identifier min_interval).1).lookup identifier = some now := by
    intro hallow
    cases hl : m.lookup identifier with
    | none => rw [should_rate_limit_of_none m now identifier min_interval hl]; exact hins now
    | some last =>
      rw [should_rate_limit_of_some m now identifier min_interval last hl] at hallow ⊢
      split_ifs with h
      · rw [if_pos h] at hallow
        simp at hallow
      · exact hins now
  refine ⟨?_, ?_, ?_, ?_, ?_, ?_⟩
  · cases hl : m.lookup identifier with
    | none =>
      rw [should_rate_limit_of_none m now identifier min_interval hl]
      simp [hl]
    | some last =>
      rw [should_rate_limit_of_some m now identifier min_interval last hl]
      split_ifs with hlt
      · simp only [true_iff]
        exact ⟨last, rfl, hlt⟩
      · simp only [Bool.false_eq_true, false_iff, not_exists, not_and]
        intro x hx
        rw [Option.some_inj] at hx
        subst hx
        omega
  · cases hl : m.lookup identifier with
    | none =>
      rw [should_rate_limit_of_none m now identifier min_interval hl]
      simp
    | some last =>
      rw [should_rate_limit_of_some m now identifier min_interval last hl]
      split_ifs with hlt
      · intro _; rfl
      · simp
  · exact hrec
  · intro hnone
    rw [should_rate_limit_of_none m now identifier min_interval hnone]
  · intro now2 hallow hlt
    rw [should_rate_limit_of_some _ now2 identifier min_interval now (hrec hallow)]
    simp [hlt]
  · intro now3 hallow hge
    rw [should_rate_limit_of_some _ now3 identifier min_interval now (hrec hallow)]
    have hnot : ¬ (now3 - now < min_interval) := by omega
    simp [hnot]

/-- Witness for C7 (amended): the false/true/false scenario at instants
0, 5, 10 with a 10-tick window. -/
theorem c7_rate_limiter_witness :
    (should_rate_limit ([] : List (String × Nat)) 0 "k" 10).2 = false ∧
      (should_rate_limit (should_rate_limit ([] : List (String × Nat)) 0 "k" 10).1
        5 "k" 10).2 = true ∧
      (should_rate_limit (should_rate_limit ([] : List (String × Nat)) 0 "k" 10).1
        10 "k" 10).2 = false := by
  have h := c7_rate_limiter ([] : List (String × Nat)) 0 "k" 10
  refine ⟨h.2.2.2.1 rfl, ?_, ?_⟩
  · exact h.2.2.2.2.1 5 (h.2.2.2.1 rfl) (by decide)
  · exact h.2.2.2.2.2 10 (h.2.2.2.1 rfl) (by decide)

theorem containsSub_iff (s pat : List Char) :
    containsSub s pat = true ↔ pat <:+: s := by
  unfold containsSub
  rw [List.any_eq_true]
  constructor
  · rintro ⟨t, ht, hp⟩
    rw [List.mem_tails] at ht
    rw [List.isPrefixOf_iff_prefix] at hp
    exact List.infix_iff_prefix_suffix.mpr ⟨t, hp, ht⟩
  · intro h
    obtain ⟨t, hp, ht⟩ := List.infix_iff_prefix_suffix.mp h
    exact ⟨t, (List.mem_tails t s).mpr ht, List.isPrefixOf_iff_prefix.mpr hp⟩

theorem is_delisting_error_iff (msg : List Char) :
    is_delisting_error msg = true ↔
      ∃ p ∈ delistingPhrases, p <:+: lowerChars msg := by
  unfold is_delisting_error delistingPhrases
  simp only [Bool.or_eq_true, containsSub_iff]
  constructor
  · rintro (((h | h) | h) | h)
    · exact ⟨_, by simp, h⟩
    · exact ⟨_, by simp, h⟩
    · exact ⟨_, by simp, h⟩
    · exact ⟨_, by simp, h⟩
  · rintro ⟨p, hp, hinf⟩
    simp only [List.mem_cons, List.not_mem_nil, or_false] at hp
    rcases hp with rfl | rfl | rfl | rfl
    · exact Or.inl (Or.inl (Or.inl hinf))
    · exact Or.inl (Or.inl (Or.inr hinf))
    · exact Or.inl (Or.inr hinf)
    · exact Or.inr hinf

theorem fwdc_of_ok (symbol : String) (o : ProviderOutcome) (db : List Stock) (now : ℤ)
    (q : QuoteResponse) (h : fetch_current_quote symbol o = .ok q) :
    fetch_current_quote_with_delisting_check symbol o db now = (.ok q, false, db) := by
  unfold fetch_current_quote_with_delisting_check
  rw [h]

theorem fwdc_of_bad (symbol : String) (o : ProviderOutcome) (db : List Stock) (now : ℤ)
    (msg : List Char) (h : fetch_current_quote symbol o = .error (.BadRequest msg)) :
    fetch_current_quote_with_delisting_check symbol o db now =
      if is_delisting_error msg then
        (.error (.BadRequest msg), true, mark_stock_as_delisted db symbol now)
      else (.error (.BadRequest msg), false, db) := by
  unfold fetch_current_quote_with_delisting_check
  rw [h]

theorem fwdc_of_ise (symbol : String) (o : ProviderOutcome) (db : List Stock) (now : ℤ)
    (msg : List Char)
    (h : fetch_current_quote symbol o = .error (.InternalServerError msg)) :
    fetch_current_quote_with_delisting_check symbol o db now =
      (.error (.InternalServerError msg), false, db) := by
  unfold fetch_current_quote_with_delisting_check
  rw [h]

theorem fetch_ignored (symbol : String) (o : ProviderOutcome)
    (hig : should_ignore_symbol symbol = true) :
    fetch_current_quote symbol o = .error (.BadRequest (ignoredMsg symbol)) := by
  unfold fetch_current_quote
  rw [hig]
  rfl

theorem fetch_success (symbol : String) (q : ProviderQuote)
    (hig : should_ignore_symbol symbol = false) :
    fetch_current_quote symbol (.success q) =
      .ok { symbol := symbol, price := q.close, change := q.close - q.openPrice,
            change_percent := (q.close - q.openPrice) / q.openPrice * 100,
            volume := q.volume } := by
  unfold fetch_current_quote
  rw [hig]
  rfl

theorem fetch_fetchErr (symbol : String) (e : List Char)
    (hig : should_ignore_symbol symbol = false) :
    fetch_current_quote symbol (.fetchErr e) =
      if is_delisting_error ("Failed to fetch quote: ".toList ++ e) then
        .error (.BadRequest (delistedMsg symbol e))
      else .error (.InternalServerError ("Failed to fetch quote: ".toList ++ e)) := by
  unfold fetch_current_quote
  rw [hig]
  rfl

theorem fetch_parseErr (symbol : String) (e : List Char)
    (hig : should_ignore_symbol symbol = false) :
    fetch_current_quote symbol (.parseErr e) =
      if is_delisting_error ("Failed to parse quote: ".toList ++ e) then
        .error (.BadRequest (delistedMsg symbol e))
      else .error (.InternalServerError ("Failed to parse quote: ".toList ++ e)) := by
  unfold fetch_current_quote
  rw [hig]
  rfl

theorem fetch_ise_not_delisting (symbol : String) (o : ProviderOutcome) (msg : List Char)
    (h : fetch_current_quote symbol o = .error (.InternalServerError msg)) :
    is_delisting_error msg = false := by
  cases hig : should_ignore_symbol symbol with
  | true =>
    rw [fetch_ignored symbol o hig] at h
    simp at h
  | false =>
    cases o with
    | success q =>
      rw [fetch_success symbol q hig] at h
      simp at h
    | fetchErr e =>
      rw [fetch_fetchErr symbol e hig] at h
      split_ifs at h with hd
      · simp at h
      · injection h with h1
        injection h1 with h2
        rw [← h2]
        simpa using hd
    | parseErr e =>
      rw [fetch_parseErr symbol e hig] at h
      split_ifs at h with hd
      · simp at h
      · injection h with h1
        injection h1 with h2
        rw [← h2]
        simpa using hd

theorem mark_fields (db : List Stock) (symbol : String) (now : ℤ) :
    ∀ r ∈ mark_stock_as_delisted db symbol now, r.symbol = symbol →
      r.is_active = false ∧ r.delisting_reason = some "no_data_found" ∧
        r.last_error_at = some now := by
  intro r hr hsym
  unfold mark_stock_as_delisted mark_stock_as_delisted_with_reason at hr
  rw [List.mem_map] at hr
  obtain ⟨r0, hr0, rfl⟩ := hr
  by_cases h : r0.symbol = symbol
  · rw [if_pos h]
    exact ⟨rfl, rfl, rfl⟩
  · rw [if_neg h] at hsym ⊢
    exact absurd hsym h

theorem fwdc_marked_iff (symbol : String) (o : ProviderOutcome) (db : List Stock)
    (now : ℤ) :
    ((fetch_current_quote_with_delisting_check symbol o db now).2.1 = true ↔
      ∃ msg, fetch_current_quote symbol o = .error (.BadRequest msg) ∧
        is_delisting_error msg = true) ∧
    ((fetch_current_quote_with_delisting_check symbol o db now).2.1 = true →
      (fetch_current_quote_with_delisting_check symbol o db now).2.2
        = mark_stock_as_delisted db symbol now) ∧
    ((fetch_current_quote_with_delisting_check symbol o db now).2.1 = false →
      (fetch_current_quote_with_delisting_check symbol o db now).2.2 = db) := by
  cases hres : fetch_current_quote symbol o with
  | ok q =>
    rw [fwdc_of_ok symbol o db now q hres]
    simp
  | error e =>
    cases e with
    | BadRequest msg =>
      rw [fwdc_of_bad symbol o db now msg hres]
      split_ifs with hd
      · refine ⟨?_, fun _ => rfl, fun hf => by simp at hf⟩
        simp only [true_iff]
        exact ⟨msg, rfl, hd⟩
      · refine ⟨?_, fun ht => by simp at ht, fun _ => rfl⟩
        simp only [Bool.false_eq_true, false_iff, not_exists, not_and]
        rintro x hx
        injection hx with hx1
        injection hx1 with hx2
        rw [← hx2]
        simpa using hd
    | InternalServerError msg =>
      rw [fwdc_of_ise symbol o db now msg hres]
      refine ⟨?_, fun ht => by simp at ht, fun _ => rfl⟩
      simp only [Bool.false_eq_true, false_iff, not_exists, not_and]
      rintro x hx
      simp at hx

/-- C5: the delisting classifier accepts a message exactly when one of the
four phrases is a case-insensitive substring of it; a fetch failure marks the
symbol's row inactive (with a reason and an error timestamp) precisely when
its error message contains one of the phrases; every other outcome leaves the
store untouched (so the symbol stays eligible for the next tick). -/
theorem c5_delisting_classification (symbol : String) (o : ProviderOutcome)
    (db : List Stock) (now : ℤ) :
    (∀ msg : List Char, is_delisting_error msg = true ↔
      ∃ p ∈ delistingPhrases, p <:+: lowerChars msg) ∧
    ((fetch_current_quote_with_delisting_check symbol o db now).2.1 = true ↔
      ∃ e, fetch_current_quote symbol o = .error e ∧
        ∃ p ∈ delistingPhrases, p <:+: lowerChars (AppError.message e)) ∧
    ((fetch_current_quote_with_delisting_check symbol o db now).2.1 = true →
      ∀ r ∈ (fetch_current_quote_with_delisting_check symbol o db now).2.2,
        r.symbol = symbol →
          r.is_active = false ∧ r.delisting_reason = some "no_data_found" ∧
            r.last_error_at = some now) ∧
    ((fetch_current_quote_with_delisting_check symbol o db now).2.1 = false →
      (fetch_current_quote_with_delisting_check symbol o db now).2.2 = db) := by
  obtain ⟨hiff, hmark, hkeep⟩ := fwdc_marked_iff symbol o db now
  refine ⟨is_delisting_error_iff, ?_, ?_, hkeep⟩
  · rw [hiff]
    constructor
    · rintro ⟨msg, hres, hd⟩
      exact ⟨.BadRequest msg, hres, (is_delisting_error_iff msg).mp hd⟩
    · rintro ⟨e, hres, hphrase⟩
      cases e with
      | BadRequest msg =>
        exact ⟨msg, hres, (is_delisting_error_iff msg).mpr hphrase⟩
      | InternalServerError msg =>
        have hfalse := fetch_ise_not_delisting symbol o msg hres
        have htrue := (is_delisting_error_iff msg).mpr hphrase
        rw [htrue] at hfalse
        exact absurd hfalse (by simp)
  · intro ht r hr hsym
    rw [hmark ht] at hr
    exact mark_fields db symbol now r hr hsym

/-- Witness for C5: a fetch failure reading "No data found" for AAPL marks its
row inactive with the reason and timestamp. -/
theorem c5_delisting_classification_witness :
    ((fetch_current_quote_with_delisting_check "AAPL" (.fetchErr "No data found".toList)
        [mkStock "AAPL" true .high none] 7).2.1 = true) ∧
      (((mark_stock_as_delisted [mkStock "AAPL" true .high none] "AAPL" 7).getD 0
          (mkStock "X" true .low none)).is_active = false ∧
        ((mark_stock_as_delisted [mkStock "AAPL" true .high none] "AAPL" 7).getD 0
          (mkStock "X" true .low none)).delisting_reason = some "no_data_found" ∧
        ((mark_stock_as_delisted [mkStock "AAPL" true .high none] "AAPL" 7).getD 0
          (mkStock "X" true .low none)).last_error_at = some 7) := by
  have h := c5_delisting_classification "AAPL" (.fetchErr "No data found".toList)
    [mkStock "AAPL" true .high none] 7
  refine ⟨by decide, h.2.2.1 (by decide) _ ?_ (by decide)⟩
  decide

/-- Counterexample to C10: the adversarial symbol "^not found" contains `^`,
so it is refused by the filtering rules, but the refusal message "Symbol ^not
found is ignored due to filtering rules" itself contains the delisting phrase
"not found", so `fetch_current_quote_with_delisting_check` marks the symbol
delisted — the claim says such a symbol is never marked delisted. -/
theorem c10_counterexample :
    should_ignore_symbol "^not found" = true ∧
      (fetch_current_quote_with_delisting_check "^not found"
        (.fetchErr "timeout".toList) [mkStock "^not found" true .low none] 3).2.1
        = true := by
  exact ⟨by decide, by decide⟩

/-- C10 amended: a symbol containing `^`, `/` or `*`, or empty or
whitespace-only, is refused with a BadRequest before any provider outcome is
consulted; it is marked delisted exactly when the filtering-rules message
itself contains a delisting phrase (which requires the symbol's own text to
complete one, as in "^not found"); otherwise the store is untouched and the
symbol stays eligible for retry. -/
theorem c10_ignored_symbols (symbol : String) (o : ProviderOutcome) (db : List Stock)
    (now : ℤ)
    (h : symbol.toList.contains '^' = true ∨ symbol.toList.contains '/' = true ∨
      symbol.toList.contains '*' = true ∨ symbol.toList.all Char.isWhitespace = true) :
    should_ignore_symbol symbol = true ∧
    fetch_current_quote symbol o = .error (.BadRequest (ignoredMsg symbol)) ∧
    ((fetch_current_quote_with_delisting_check symbol o db now).2.1
        = is_delisting_error (ignoredMsg symbol)) ∧
    (is_delisting_error (ignoredMsg symbol) = false →
      (fetch_current_quote_with_delisting_check symbol o db now).2.2 = db) := by
  have hig : should_ignore_symbol symbol = true := by
    unfold should_ignore_symbol
    split_ifs with h1 h2
    · rfl
    · rfl
    · exfalso
      rcases h with h | h | h | h
      · have hm : '^' ∈ symbol.toList := by simpa using h
        exact h1 (by simp; exact Or.inl (Or.inl hm))
      · have hm : '/' ∈ symbol.toList := by simpa using h
        exact h1 (by simp; exact Or.inl (Or.inr hm))
      · have hm : '*' ∈ symbol.toList := by simpa using h
        exact h1 (by simp; exact Or.inr hm)
      · exact h2 h
  refine ⟨hig, fetch_ignored symbol o hig, ?_, ?_⟩
  · rw [fwdc_of_bad symbol o db now (ignoredMsg symbol) (fetch_ignored symbol o hig)]
    split_ifs with hd
    · rw [hd]
    · have hf : is_delisting_error (ignoredMsg symbol) = false := by simpa using hd
      rw [hf]
  · intro hfalse
    rw [fwdc_of_bad symbol o db now (ignoredMsg symbol) (fetch_ignored symbol o hig)]
    rw [if_neg (by simp [hfalse])]

/-- Witness for C10 (amended) at the benign ignored symbol "^AAPL": refused
before any provider call, not delisting-classified, store untouched. -/
theorem c10_ignored_symbols_witness :
    should_ignore_symbol "^AAPL" = true ∧
      fetch_current_quote "^AAPL" (.fetchErr "timeout".toList)
        = .error (.BadRequest (ignoredMsg "^AAPL")) ∧
      ((fetch_current_quote_with_delisting_check "^AAPL" (.fetchErr "timeout".toList)
          [mkStock "^AAPL" true .low none] 0).2.1
        = is_delisting_error (ignoredMsg "^AAPL")) ∧
      ((fetch_current_quote_with_delisting_check "^AAPL" (.fetchErr "timeout".toList)
          [mkStock "^AAPL" true .low none] 0).2.2 = [mkStock "^AAPL" true .low none]) := by
  have h := c10_ignored_symbols "^AAPL" (.fetchErr "timeout".toList)
    [mkStock "^AAPL" true .low none] 0 (Or.inl (by decide))
  exact ⟨h.1, h.2.1, h.2.2.1, h.2.2.2 (by decide)⟩

theorem set_stock_priority_of_symbol (db : List Stock) (sym : String)
    (p : StockPriority) (now : ℤ) :
    ∀ r ∈ set_stock_priority db sym p now, r.symbol = sym → r.priority = p := by
  intro r hr hsym
  unfold set_stock_priority at hr
  rw [List.mem_map] at hr
  obtain ⟨r0, hr0, rfl⟩ := hr
  by_cases h : r0.symbol = sym
  · rw [if_pos h]
  · rw [if_neg h] at hsym ⊢
    exact absurd hsym h

theorem set_stock_priority_mem (db : List Stock) (sym : String)
    (p : StockPriority) (now : ℤ) :
    ∀ r ∈ set_stock_priority db sym p now,
      r.priority = p ∨ ∃ r0 ∈ db, r0.symbol = r.symbol ∧ r.priority = r0.priority := by
  intro r hr
  unfold set_stock_priority at hr
  rw [List.mem_map] at hr
  obtain ⟨r0, hr0, rfl⟩ := hr
  by_cases h : r0.symbol = sym
  · rw [if_pos h]
    exact Or.inl rfl
  · rw [if_neg h]
    exact Or.inr ⟨r0, hr0, rfl, rfl⟩

/-- C6: a successful watchlist add sets the symbol's stock row to High
priority and spawns an out-of-band immediate refresh of exactly that symbol
(built by the handler with no reference to any `last_price_update`, so the
interval check is bypassed); a removal demotes the symbol to Medium exactly
when it no longer appears in any watchlist, leaves the stocks table untouched
otherwise, and never sets Low. -/
theorem c6_watchlist_priority (db : AppDb) (user_id : Nat) (symbol : String) (now : ℤ)
    (db2 : AppDb) (refresh : List String)
    (hadd : add_to_watchlist db user_id symbol now = .ok (db2, refresh)) :
    (∀ r ∈ db2.stocks, r.symbol = symbol → r.priority = .high) ∧
    refresh = [symbol] ∧
    ((get_watchlist_symbols (remove_from_watchlist db user_id symbol now).watchlist).contains
        symbol = false →
      ∀ r ∈ (remove_from_watchlist db user_id symbol now).stocks, r.symbol = symbol →
        r.priority = .medium) ∧
    ((get_watchlist_symbols (remove_from_watchlist db user_id symbol now).watchlist).contains
        symbol = true →
      (remove_from_watchlist db user_id symbol now).stocks = db.stocks) ∧
    (∀ r ∈ (remove_from_watchlist db user_id symbol now).stocks,
      r.priority = .medium ∨ ∃ r0 ∈ db.stocks, r0.symbol = r.symbol ∧
        r.priority = r0.priority) := by
  have hdb2 : db2.stocks = set_stock_priority db.stocks symbol .high now ∧
      refresh = [symbol] := by
    unfold add_to_watchlist at hadd
    cases hdba : db_add_to_watchlist db.watchlist user_id symbol with
    | error u => rw [hdba] at hadd; simp at hadd
    | ok w1 =>
      rw [hdba] at hadd
      simp only [Except.ok.injEq, Prod.mk.injEq] at hadd
      obtain ⟨h1, h2⟩ := hadd
      rw [← h1]
      exact ⟨rfl, h2.symm⟩
  have hwl : (remove_from_watchlist db user_id symbol now).watchlist
      = db.watchlist.filter (fun e => !(decide (e.1 = user_id ∧ e.2 = symbol))) := by
    unfold remove_from_watchlist
    split_ifs <;> rfl
  refine ⟨?_, hdb2.2, ?_, ?_, ?_⟩
  · intro r hr hsym
    rw [hdb2.1] at hr
    exact set_stock_priority_of_symbol db.stocks symbol .high now r hr hsym
  · intro hnot r hr hsym
    rw [hwl] at hnot
    unfold remove_from_watchlist at hr
    split_ifs at hr with hc
    · rw [hc] at hnot
      exact absurd hnot (by simp)
    · exact set_stock_priority_of_symbol db.stocks symbol .medium now r hr hsym
  · intro hyes
    rw [hwl] at hyes
    unfold remove_from_watchlist
    rw [if_pos hyes]
  · intro r hr
    unfold remove_from_watchlist at hr
    split_ifs at hr with hc
    · exact Or.inr ⟨r, hr, rfl, rfl⟩
    · exact set_stock_priority_mem db.stocks symbol .medium now r hr

/-- Witness for C6: adding AAPL (held at Low) to an empty watchlist promotes
it to High and refreshes it immediately; removing it again (leaving no
watchlist entry) demotes it to Medium. -/
theorem c6_watchlist_priority_witness :
    (add_to_watchlist (AppDb.mk [] [mkStock "AAPL" true .low none]) 0 "AAPL" 5
      = .ok (AppDb.mk [(0, "AAPL")] (set_stock_priority [mkStock "AAPL" true .low none]
          "AAPL" .high 5), ["AAPL"])) ∧
      (∀ r ∈ (AppDb.mk [(0, "AAPL")] (set_stock_priority [mkStock "AAPL" true .low none]
          "AAPL" .high 5)).stocks, r.symbol = "AAPL" → r.priority = .high) ∧
      (∀ r ∈ (remove_from_watchlist (AppDb.mk [] [mkStock "AAPL" true .low none])
          0 "AAPL" 5).stocks, r.symbol = "AAPL" → r.priority = .medium) := by
  have h := c6_watchlist_priority (AppDb.mk [] [mkStock "AAPL" true .low none]) 0 "AAPL" 5
    (AppDb.mk [(0, "AAPL")] (set_stock_priority [mkStock "AAPL" true .low none]
      "AAPL" .high 5)) ["AAPL"] rfl
  exact ⟨rfl, h.1, h.2.2.1 (by decide)⟩

theorem range'_drop (a n k : Nat) : (List.range' a n).drop k = List.range' (a + k) (n - k) := by
  induction k generalizing a n with
  | zero => simp
  | succ j ih =>
    cases n with
    | zero => simp
    | succ m =>
      rw [List.range'_succ, List.drop_succ_cons, ih (a + 1) m]
      congr 1 <;> omega

theorem stochLoop_get (kp dp : Nat) (data : List StockData) (hkp : 1 ≤ kp) :
    ∀ (cnt s i : Nat), i < cnt → kp - 1 ≤ s →
      (stochLoop kp dp data (List.range' s cnt)
          ((List.range' (kp - 1) (s - (kp - 1))).map (kPercent kp data))).get? i
        = some (some ⟨kPercent kp data (s + i), dSpecValue kp dp data (s + i)⟩) := by
  intro cnt
  induction cnt with
  | zero => intro s i hi; omega
  | succ m ih =>
    intro s i hi hs
    rw [List.range'_succ]
    unfold stochLoop
    have hkvs : (List.range' (kp - 1) (s - (kp - 1))).map (kPercent kp data)
        ++ [kPercent kp data s]
        = (List.range' (kp - 1) (s - (kp - 1) + 1)).map (kPercent kp data) := by
      rw [List.range'_concat, List.map_append]
      congr 3
      omega
    rw [hkvs]
    cases i with
    | zero =>
      rw [List.get?_cons_zero]
      simp only [Nat.add_zero]
      have hd : (if dp ≤ ((List.range' (kp - 1) (s - (kp - 1) + 1)).map
              (kPercent kp data)).length then
            (((List.range' (kp - 1) (s - (kp - 1) + 1)).map (kPercent kp data)).drop
              (((List.range' (kp - 1) (s - (kp - 1) + 1)).map (kPercent kp data)).length
                - dp)).sum / (dp : ℚ)
          else kPercent kp data s) = dSpecValue kp dp data s := by
        unfold dSpecValue
        simp only [List.length_map, List.length_range']
        have harith : s + 2 - kp = s - (kp - 1) + 1 := by omega
        rw [harith]
        split_ifs with h1
        · rw [← List.map_drop, range'_drop]
          have h2 : kp - 1 + (s - (kp - 1) + 1 - dp) = s + 1 - dp := by omega
          have h3 : s - (kp - 1) + 1 - (s - (kp - 1) + 1 - dp) = dp := by omega
          rw [h2, h3]
        · rfl
      rw [hd]
    | succ j =>
      rw [List.get?_cons_succ]
      have hs2 : s - (kp - 1) + 1 = (s + 1) - (kp - 1) := by omega
      rw [hs2]
      have hrec := ih (s + 1) j (by omega) (by omega)
      rw [hrec]
      have h4 : s + 1 + j = s + (j + 1) := by omega
      rw [h4]

theorem calculate_eq (kp dp : Nat) (data : List StockData) :
    StochasticOscillator.calculate ⟨kp, dp⟩ data =
      if data.length < kp then List.replicate data.length none
      else List.replicate (kp - 1) none ++
        stochLoop kp dp data (List.range' (kp - 1) (data.length - (kp - 1))) [] := rfl

/-- C8: from position `k_period − 1` on (given at least `k_period` bars), the
stochastic oscillator emits exactly the pair whose %K is
`(close − lowestLow)/(highestHigh − lowestLow)·100` over the last `k_period`
bars — exactly `50` when the window's range is zero — and whose %D is the
mean of the last `d_period` %K values once that many exist, and the current
%K itself before that. -/
theorem c8_stochastic (kp dp : Nat) (hkp : 1 ≤ kp) (data : List StockData)
    (hlen : kp ≤ data.length) :
    ∀ i, kp - 1 ≤ i → i < data.length →
      ((StochasticOscillator.calculate ⟨kp, dp⟩ data).get? i
          = some (some ⟨kPercent kp data i, dSpecValue kp dp data i⟩)) ∧
      (highestHigh (stochWindow kp data i) = lowestLow (stochWindow kp data i) →
        kPercent kp data i = 50) ∧
      (highestHigh (stochWindow kp data i) ≠ lowestLow (stochWindow kp data i) →
        kPercent kp data i
          = ((data.getD i { high := 0, low := 0, close := 0 }).close
              - lowestLow (stochWindow kp data i))
            / (highestHigh (stochWindow kp data i) - lowestLow (stochWindow kp data i))
            * 100) := by
  intro i hi hilen
  refine ⟨?_, ?_, ?_⟩
  · rw [calculate_eq, if_neg (by omega)]
    have hrepl : (List.replicate (kp - 1) (none : Option StochasticValue)).length ≤ i := by
      simp only [List.length_replicate]
      omega
    rw [List.get?_append_right hrepl]
    simp only [List.length_replicate]
    have hempty : ([] : List ℚ)
        = (List.range' (kp - 1) ((kp - 1) - (kp - 1))).map (kPercent kp data) := by
      simp
    rw [hempty, stochLoop_get kp dp data hkp (data.length - (kp - 1)) (kp - 1)
      (i - (kp - 1)) (by omega) (by omega)]
    have h5 : kp - 1 + (i - (kp - 1)) = i := by omega
    rw [h5]
  · intro h
    unfold kPercent
    rw [if_neg (by simpa using h)]
  · intro h
    unfold kPercent
    rw [if_pos (by simpa using h)]

/-- Witness for C8 at `k_period = d_period = 1` on a single flat bar: the
window's range is zero, so %K (and hence %D) is exactly 50. -/
theorem c8_stochastic_witness :
    ((StochasticOscillator.calculate ⟨1, 1⟩ [{ high := 1, low := 1, close := 1 }]).get? 0
        = some (some ⟨kPercent 1 [{ high := 1, low := 1, close := 1 }] 0,
            dSpecValue 1 1 [{ high := 1, low := 1, close := 1 }] 0⟩)) ∧
      kPercent 1 [{ high := 1, low := 1, close := 1 }] 0 = 50 := by
  have h := c8_stochastic 1 1 (by decide) [{ high := 1, low := 1, close := 1 }]
    (by decide) 0 (by decide) (by decide)
  exact ⟨h.1, h.2.1 rfl⟩
